import Mathlib

set_option linter.unusedSectionVars false

/-!
Verification development for the tsuru ingress-router reconciliation engine
(`kubernetes/ingress.go`, both the original 2017 ingress service and the later
`Ensure`-based service concatenated in that file, plus the HTTP adapter).

The Go code is shallowly embedded: Go maps with string keys and values become
association lists with Go's zero-value lookup semantics (`sget` returns "" for
a missing key, like `m[k]` on a Go `map[string]string`); the Kubernetes API
server becomes an explicit store (association list keyed by object name)
threaded through each operation together with a trace of the mutating calls
issued; Go slice indexing that can panic becomes `Option`.

Helpers that the repository defines outside the provided sources
(`BaseService` resolution, `hashedResourceName`, `diffCNames`, `mergeMaps`,
`getStatusForRuntimeObject`) are modelled from the spec; each such definition
carries a doc comment starting with "Modelled from the spec:".
-/

namespace TsuruIngress

/-! ### A generic association-list store

Both Go string maps (label/annotation metadata) and the Kubernetes object
stores (objects addressed by name in one namespace) are embedded as
association lists with at most one entry per key. -/

section AssocStore

variable {K V : Type} [DecidableEq K]

/-- Read: the value stored under a key, if any. -/
def alookup : List (K × V) → K → Option V
  | [], _ => none
  | (k, v) :: rest, key => if k = key then some v else alookup rest key

/-- Write: replaces the value of an existing key, otherwise appends the pair
(Go map assignment; object creation or update in the store). -/
def ainsert : List (K × V) → K → V → List (K × V)
  | [], key, v => [(key, v)]
  | (k, w) :: rest, key, v =>
    if k = key then (k, v) :: rest else (k, w) :: ainsert rest key v

/-- Delete: drops the entry of a key (Go `delete`; object deletion). -/
def aremove : List (K × V) → K → List (K × V)
  | [], _ => []
  | (k, w) :: rest, key => if k = key then rest else (k, w) :: aremove rest key

/-- The keys of the store. -/
def akeys (m : List (K × V)) : List K := m.map Prod.fst

/-- At most one entry per key; a Go map and the store of a Kubernetes
namespace both satisfy this, and `ainsert`/`aremove` preserve it. -/
def AKeysNodup (m : List (K × V)) : Prop := (akeys m).Nodup

theorem akeysNodup_nil : AKeysNodup ([] : List (K × V)) := List.nodup_nil

theorem akeys_cons (k : K) (v : V) (m : List (K × V)) :
    akeys ((k, v) :: m) = k :: akeys m := rfl

theorem akeysNodup_cons {k : K} {v : V} {m : List (K × V)} :
    AKeysNodup ((k, v) :: m) ↔ k ∉ akeys m ∧ AKeysNodup m := by
  simp [AKeysNodup, akeys_cons, List.nodup_cons]

theorem alookup_eq_none_of_not_mem {m : List (K × V)} {k : K}
    (h : k ∉ akeys m) : alookup m k = none := by
  induction m with
  | nil => rfl
  | cons p rest ih =>
    obtain ⟨pk, pv⟩ := p
    rw [akeys_cons] at h
    have h1 : pk ≠ k := fun he => h (by simp [he])
    have h2 : k ∉ akeys rest := fun hc => h (by simp [hc])
    simp [alookup, h1, ih h2]

theorem alookup_of_mem {m : List (K × V)} (hm : AKeysNodup m) {k : K} {v : V}
    (hkv : (k, v) ∈ m) : alookup m k = some v := by
  induction m with
  | nil => cases hkv
  | cons p rest ih =>
    obtain ⟨pk, pv⟩ := p
    have hm2 := akeysNodup_cons.mp hm
    rcases List.mem_cons.mp hkv with h | h
    · injection h with h1 h2
      subst h1
      subst h2
      simp [alookup]
    · have hkmem : k ∈ akeys rest := List.mem_map_of_mem Prod.fst h
      have hk : pk ≠ k := fun he => hm2.1 (he ▸ hkmem)
      simp [alookup, hk]
      exact ih hm2.2 h

theorem alookup_ainsert_self (m : List (K × V)) (k : K) (v : V) :
    alookup (ainsert m k v) k = some v := by
  induction m with
  | nil => simp [ainsert, alookup]
  | cons p rest ih =>
    obtain ⟨pk, pv⟩ := p
    by_cases h : pk = k <;> simp [ainsert, alookup, h, ih]

theorem alookup_ainsert_ne (m : List (K × V)) {k k2 : K} (v : V) (h : k ≠ k2) :
    alookup (ainsert m k v) k2 = alookup m k2 := by
  induction m with
  | nil => simp [ainsert, alookup, h]
  | cons p rest ih =>
    obtain ⟨pk, pv⟩ := p
    by_cases hp : pk = k
    · subst hp
      simp [ainsert, alookup, h]
    · simp [ainsert, alookup, hp, ih]

theorem alookup_aremove_ne (m : List (K × V)) {k k2 : K} (h : k ≠ k2) :
    alookup (aremove m k) k2 = alookup m k2 := by
  induction m with
  | nil => simp [aremove]
  | cons p rest ih =>
    obtain ⟨pk, pv⟩ := p
    by_cases hp : pk = k
    · subst hp
      simp [aremove, alookup, h]
    · simp [aremove, alookup, hp, ih]

theorem alookup_aremove_of_none {m : List (K × V)} {k2 : K}
    (h : alookup m k2 = none) (k : K) : alookup (aremove m k) k2 = none := by
  induction m with
  | nil => rfl
  | cons p rest ih =>
    obtain ⟨pk, pv⟩ := p
    by_cases hp : pk = k2
    · simp [alookup, hp] at h
    · simp [alookup, hp] at h
      by_cases hk : pk = k
      · simpa [aremove, hk, alookup, hp] using h
      · simp [aremove, hk, alookup, hp]
        exact ih h

theorem mem_akeys_ainsert {m : List (K × V)} {k key : K} {v : V}
    (h : k ∈ akeys (ainsert m key v)) : k ∈ akeys m ∨ k = key := by
  induction m with
  | nil =>
    simp [ainsert, akeys] at h
    exact Or.inr h
  | cons p rest ih =>
    obtain ⟨pk, pv⟩ := p
    by_cases hp : pk = key
    · subst hp
      simp [ainsert, akeys_cons] at h ⊢
      tauto
    · simp [ainsert, hp, akeys_cons] at h
      rcases h with h1 | h1
      · exact Or.inl (by simp [akeys_cons, h1])
      · rcases ih h1 with h2 | h2
        · exact Or.inl (by simp [akeys_cons]; exact Or.inr h2)
        · exact Or.inr h2

theorem akeysNodup_ainsert {m : List (K × V)} (hm : AKeysNodup m) (k : K) (v : V) :
    AKeysNodup (ainsert m k v) := by
  induction m with
  | nil => simp [ainsert, AKeysNodup, akeys]
  | cons p rest ih =>
    obtain ⟨pk, pv⟩ := p
    have hm2 := akeysNodup_cons.mp hm
    by_cases hp : pk = k
    · subst hp
      simpa [ainsert] using hm
    · have hstep : AKeysNodup ((pk, pv) :: ainsert rest k v) := by
        refine akeysNodup_cons.mpr ⟨?_, ih hm2.2⟩
        intro hc
        rcases mem_akeys_ainsert hc with h1 | h1
        · exact hm2.1 h1
        · exact hp h1
      simpa [ainsert, hp] using hstep

theorem not_mem_akeys_aremove_self {m : List (K × V)} (hm : AKeysNodup m) (k : K) :
    k ∉ akeys (aremove m k) := by
  induction m with
  | nil => simp [aremove, akeys]
  | cons p rest ih =>
    obtain ⟨pk, pv⟩ := p
    have hm2 := akeysNodup_cons.mp hm
    by_cases h : pk = k
    · subst h
      simpa [aremove] using fun hc => hm2.1 hc
    · simp [aremove, h, akeys_cons]
      exact ⟨fun he => h he.symm, ih hm2.2⟩

theorem alookup_aremove_self (m : List (K × V)) (hm : AKeysNodup m) (k : K) :
    alookup (aremove m k) k = none :=
  alookup_eq_none_of_not_mem (not_mem_akeys_aremove_self hm k)

theorem akeys_aremove_sublist (m : List (K × V)) (k : K) :
    List.Sublist (akeys (aremove m k)) (akeys m) := by
  induction m with
  | nil => simp [aremove]
  | cons p rest ih =>
    obtain ⟨pk, pv⟩ := p
    by_cases h : pk = k
    · simp [aremove, h, akeys_cons]
    · simpa [aremove, h, akeys_cons] using List.Sublist.cons₂ pk ih

theorem akeysNodup_aremove {m : List (K × V)} (hm : AKeysNodup m) (k : K) :
    AKeysNodup (aremove m k) :=
  List.Nodup.sublist (akeys_aremove_sublist m k) hm

end AssocStore

/-! ### Go string maps -/

/-- A Go `map[string]string`, embedded as an association list.  Both label and
annotation maps of Kubernetes object metadata are of this shape. -/
abbrev SMap : Type := List (String × String)

/-- Go map read `m[k]` on a `map[string]string`: the stored value, or the zero
value "" when the key is absent. -/
def sget (m : SMap) (k : String) : String := (alookup m k).getD ""

/-- Go comma-ok map read `v, ok := m[k]`: `some v` when the key is present. -/
def slookup (m : SMap) (k : String) : Option String := alookup m k

/-- Go map write `m[k] = v`. -/
def sinsert (m : SMap) (k v : String) : SMap := ainsert m k v

/-- Go `delete(m, k)`. -/
def sdelete (m : SMap) (k : String) : SMap := aremove m k

/-- Keys of a Go map. -/
def skeys (m : SMap) : List String := akeys m

def SKeysNodup (m : SMap) : Prop := AKeysNodup m

theorem sget_of_not_mem {m : SMap} {k : String} (h : k ∉ skeys m) :
    sget m k = "" := by
  simp [sget, alookup_eq_none_of_not_mem (h : k ∉ akeys m)]

theorem sget_of_mem {m : SMap} (hm : SKeysNodup m) {k v : String}
    (hkv : (k, v) ∈ m) : sget m k = v := by
  simp [sget, alookup_of_mem hm hkv]

theorem sget_sinsert_self (m : SMap) (k v : String) : sget (sinsert m k v) k = v := by
  simp [sget, sinsert, alookup_ainsert_self]

theorem sget_sinsert_ne (m : SMap) {k k2 : String} (v : String) (h : k ≠ k2) :
    sget (sinsert m k v) k2 = sget m k2 := by
  simp [sget, sinsert, alookup_ainsert_ne m v h]

theorem sget_sdelete_self (m : SMap) (hm : SKeysNodup m) (k : String) :
    sget (sdelete m k) k = "" := by
  simp [sget, sdelete, alookup_aremove_self m hm k]

theorem skeysNodup_sinsert {m : SMap} (hm : SKeysNodup m) (k v : String) :
    SKeysNodup (sinsert m k v) := akeysNodup_ainsert hm k v

theorem skeysNodup_sdelete {m : SMap} (hm : SKeysNodup m) (k : String) :
    SKeysNodup (sdelete m k) := akeysNodup_aremove hm k

/-! ### Go `strings.Split` and `strings.Join` on the comma separator

The CNames annotation value is written with `strings.Join(cnames, ",")` and
read back with `strings.Split(value, ",")`.  Go's `strings.Split` of the
empty string yields `[""]` (a one-element slice holding the empty string),
never the empty slice; the embedding reproduces that. -/

/-- Splitting of a character list at every comma; always returns at least one
group (the empty input gives one empty group, like Go). -/
def splitCommaChars : List Char → List (List Char)
  | [] => [[]]
  | c :: cs =>
    if c = ',' then [] :: splitCommaChars cs
    else
      match splitCommaChars cs with
      | [] => [[c]]
      | g :: gs => (c :: g) :: gs

/-- Joining of character-list groups with a comma between consecutive groups. -/
def joinCommaChars : List (List Char) → List Char
  | [] => []
  | [x] => x
  | x :: xs => x ++ ',' :: joinCommaChars xs

/-- Go `strings.Split(s, ",")`. -/
def goSplitComma (s : String) : List String :=
  (splitCommaChars s.data).map fun l => String.mk l

/-- Go `strings.Join(l, ",")`. -/
def goJoinComma (l : List String) : String :=
  String.mk (joinCommaChars (l.map String.data))

theorem splitCommaChars_ne_nil (l : List Char) : splitCommaChars l ≠ [] := by
  induction l with
  | nil => simp [splitCommaChars]
  | cons c cs ih =>
    by_cases h : c = ','
    · simp [splitCommaChars, h]
    · simp only [splitCommaChars, if_neg h]
      cases hs : splitCommaChars cs <;> simp

theorem splitCommaChars_of_no_comma {l : List Char} (h : ',' ∉ l) :
    splitCommaChars l = [l] := by
  induction l with
  | nil => rfl
  | cons c cs ih =>
    have hc : c ≠ ',' := fun he => h (by simp [he])
    have hcs : ',' ∉ cs := fun hm => h (by simp [hm])
    simp [splitCommaChars, hc, ih hcs]

theorem splitCommaChars_append {x : List Char} (hx : ',' ∉ x) (rest : List Char) :
    splitCommaChars (x ++ ',' :: rest) = x :: splitCommaChars rest := by
  induction x with
  | nil => simp [splitCommaChars]
  | cons c cs ih =>
    have hc : c ≠ ',' := fun he => hx (by simp [he])
    have hcs : ',' ∉ cs := fun hm => hx (by simp [hm])
    have hrw := ih hcs
    simp only [List.cons_append, splitCommaChars, if_neg hc]
    rw [show cs.append (',' :: rest) = cs ++ ',' :: rest from rfl, hrw]

theorem splitCommaChars_joinCommaChars {l : List (List Char)} (hne : l ≠ [])
    (h : ∀ g ∈ l, ',' ∉ g) :
    splitCommaChars (joinCommaChars l) = l := by
  induction l with
  | nil => cases hne rfl
  | cons x xs ih =>
    cases xs with
    | nil =>
      simp [joinCommaChars, splitCommaChars_of_no_comma (h x (by simp))]
    | cons y ys =>
      have hx : ',' ∉ x := h x (by simp)
      have hrest : ∀ g ∈ y :: ys, ',' ∉ g := fun g hg => h g (by simp [hg])
      calc splitCommaChars (joinCommaChars (x :: y :: ys))
          = splitCommaChars (x ++ ',' :: joinCommaChars (y :: ys)) := rfl
        _ = x :: splitCommaChars (joinCommaChars (y :: ys)) :=
            splitCommaChars_append hx _
        _ = x :: (y :: ys) := by rw [ih (by simp) hrest]

theorem string_mk_data (s : String) : String.mk s.data = s := rfl

/-- Round trip of the CNames annotation: joining a non-empty list of
comma-free names and splitting the result gives the list back. -/
theorem goSplitComma_goJoinComma {l : List String} (hne : l ≠ [])
    (h : ∀ s ∈ l, ',' ∉ s.data) :
    goSplitComma (goJoinComma l) = l := by
  unfold goSplitComma goJoinComma
  rw [show (String.mk (joinCommaChars (l.map String.data))).data
        = joinCommaChars (l.map String.data) from rfl]
  rw [splitCommaChars_joinCommaChars (by simpa using hne)
    (by
      intro g hg
      rcases List.mem_map.mp hg with ⟨s, hs, rfl⟩
      exact h s hs)]
  rw [List.map_map]
  have : ((fun l => String.mk l) ∘ String.data) = id := by
    funext s
    rfl
  rw [this, List.map_id]

/-- Go `strings.Split("", ",")` is `[""]`: the artifact that makes an absent
CNames annotation parse to a one-element list holding the empty name. -/
theorem goSplitComma_empty : goSplitComma "" = [""] := rfl

/-! ## Shared label constants (`kubernetes/ingress.go`, both versions) -/

def appLabel : String := "tsuru.io/app-name"

def processLabel : String := "tsuru.io/app-process"

def swapLabel : String := "tsuru.io/swapped-with"

def webProcessName : String := "web"

def defaultServicePort : Nat := 8888

/-! ## The original ingress service (first file of `kubernetes/ingress.go`)

Objects live in one namespace and are addressed by name; the store is an
association list from object name to object.  Only the fields the claims
touch are modelled: the backend pointer (`Spec.Backend.ServiceName` /
`ServicePort`) and the metadata labels. -/

/-- `v1beta1.Ingress` as the original service uses it: a single backend
pointer plus labels. -/
structure IngressV1 where
  labels : SMap
  serviceName : String
  servicePort : Nat
  deriving DecidableEq

/-- The Kubernetes store for the original service: ingress objects by name. -/
abbrev StoreV1 : Type := List (String × IngressV1)

/-- `ingressName` of the original service: appName + "-ingress". -/
def ingressNameV1 (appName : String) : String := appName ++ "-ingress"

/-- The `swap` helper: exchanges the two ingresses' backend service names and
ports, then toggles the swap labels — if the source's swap label already names
the destination's app, both swap labels are deleted, otherwise each swap label
is set to the other's app label. -/
def swapPair (srcIngress dstIngress : IngressV1) : IngressV1 × IngressV1 :=
  let src1 : IngressV1 :=
    { srcIngress with serviceName := dstIngress.serviceName,
                      servicePort := dstIngress.servicePort }
  let dst1 : IngressV1 :=
    { dstIngress with serviceName := srcIngress.serviceName,
                      servicePort := srcIngress.servicePort }
  if sget src1.labels swapLabel = sget dst1.labels appLabel then
    ({ src1 with labels := sdelete src1.labels swapLabel },
     { dst1 with labels := sdelete dst1.labels swapLabel })
  else
    let src2 : IngressV1 :=
      { src1 with labels := sinsert src1.labels swapLabel (sget dst1.labels appLabel) }
    let dst2 : IngressV1 :=
      { dst1 with labels := sinsert dst1.labels swapLabel (sget src2.labels appLabel) }
    (src2, dst2)

/-- Outcome of `IngressService.Swap`.  A store error is carried as the message
string of the Go error; the combined rollback failure is
`fmt.Errorf("failed to rollback swap %v: %v", err, errRollback)`. -/
def rollbackErrMsg (err errRollback : String) : String :=
  "failed to rollback swap " ++ err ++ ": " ++ errRollback

/-- `IngressService.Swap(srcApp, dstApp)`.  The two ingresses are fetched,
swapped in memory, and written back src first, dst second; a failed dst write
triggers an in-memory un-swap and a compensating rewrite of src.  Write
failures are injected through the three `Option String` parameters (`none`
means the write succeeds); a failed write leaves the store unchanged.
Returns the store after the call and the error returned to the caller
(`none` on success). -/
def svcSwap (st : StoreV1) (srcApp dstApp : String)
    (srcWriteErr dstWriteErr rollbackWriteErr : Option String) :
    StoreV1 × Option String :=
  match alookup st (ingressNameV1 srcApp), alookup st (ingressNameV1 dstApp) with
  | none, _ => (st, some "ingress not found")
  | some _, none => (st, some "ingress not found")
  | some srcIngress, some dstIngress =>
    let p1 := swapPair srcIngress dstIngress
    match srcWriteErr with
    | some e => (st, some e)
    | none =>
      let st1 := ainsert st (ingressNameV1 srcApp) p1.1
      match dstWriteErr with
      | none => (ainsert st1 (ingressNameV1 dstApp) p1.2, none)
      | some e =>
        let p2 := swapPair p1.1 p1.2
        match rollbackWriteErr with
        | none => (ainsert st1 (ingressNameV1 srcApp) p2.1, some e)
        | some e2 => (st1, some (rollbackErrMsg e e2))

/-- Result of `IngressService.Remove` of the original service. -/
inductive RemoveResultV1 where
  | ok
  | appSwapped (app dstApp : String)
  deriving DecidableEq

/-- `IngressService.Remove(appName)`: looks the ingress up (absent → success),
refuses with `ErrAppSwapped` when the swap label is present, otherwise deletes
(absent on delete → success too).  The lookup and the delete are two separate
API calls, so they read two store states: `stGet` at lookup time and `stDel`
at delete time. -/
def svcRemove (stGet stDel : StoreV1) (appName : String) :
    RemoveResultV1 × StoreV1 :=
  match alookup stGet (ingressNameV1 appName) with
  | none => (.ok, stDel)
  | some ingress =>
    match slookup ingress.labels swapLabel with
    | some dstApp => (.appSwapped appName dstApp, stDel)
    | none => (.ok, aremove stDel (ingressNameV1 appName))

/-- `ErrNoService`: app always set, process only for the web tie-break. -/
structure ErrNoService where
  app : String
  process : String
  deriving DecidableEq

/-- A `v1.Service` as the backend selection of `Update` sees it. -/
structure ServiceV1 where
  name : String
  labels : SMap
  port : Nat
  deriving DecidableEq

/-- The backend selection of the original `IngressService.Update` (lines
89–105): over the services listed for the app's label — zero matches fail
with `ErrNoService{App}`; with exactly one it is selected; with more than
one, the first service whose process label is "web" is selected, and only
when none carries it the call fails with `ErrNoService{App, Process:"web"}`. -/
def selectWebService (appName : String) (items : List ServiceV1) :
    Except ErrNoService ServiceV1 :=
  match items with
  | [] => .error ⟨appName, ""⟩
  | first :: _ =>
    if items.length > 1 then
      match items.find? (fun s => sget s.labels processLabel == webProcessName) with
      | some s => .ok s
      | none => .error ⟨appName, webProcessName⟩
    else .ok first

/-! ## The Ensure-based ingress service (second file of `kubernetes/ingress.go`)

Opentracing spans and owner references are omitted: they carry no control
flow.  Namespace and backend resolution (`BaseService.getAppNamespace`,
`getDefaultBackendTarget`, `getWebService` — not among the provided sources)
are modelled as a resolved backend-target input, identical across calls of
one scenario. -/

def AnnotationsACMEKey : String := "kubernetes.io/tls-acme"

def labelCNameIngress : String := "router.tsuru.io/is-cname-ingress"

def AnnotationsCNames : String := "router.tsuru.io/cnames"

def defaultClassOpt : String := "class"

def defaultOptsAsAnnotations : SMap := [(defaultClassOpt, "kubernetes.io/ingress.class")]

/-- Modelled from the spec: the labels recording the base backend's namespace
and name are declared in the repository's service layer, which is not among
the provided sources; only their distinctness matters here. -/
def appBaseServiceNamespaceLabel : String := "router.tsuru.io/base-service-namespace"

/-- Modelled from the spec: companion of `appBaseServiceNamespaceLabel`. -/
def appBaseServiceNameLabel : String := "router.tsuru.io/base-service-name"

/-- Modelled from the spec: all object names are composed deterministically
from stable inputs and `hashedResourceName` (not among the provided sources)
never maps different inputs to the same name; names are therefore embedded as
a structured type whose constructors mirror `ingressName` (per application),
`ingressCName` (per alias host) and `secretName` (per application and host). -/
inductive RName where
  | primary (appName : String)
  | cname (host : String)
  | secret (appName host : String)
  deriving DecidableEq

structure IngressBackend where
  serviceName : String
  servicePort : Nat
  deriving DecidableEq

structure HTTPIngressPath where
  path : String
  backend : IngressBackend
  deriving DecidableEq

structure IngressRule where
  host : String
  paths : List HTTPIngressPath
  deriving DecidableEq

structure IngressTLS where
  hosts : List String
  secretName : RName
  deriving DecidableEq

/-- `v1beta1.IngressSpec`: the rule list, the TLS list, and the legacy
single-backend pointer (set only on objects written by the original service). -/
structure IngressSpecV2 where
  rules : List IngressRule
  tls : List IngressTLS
  backend : Option IngressBackend
  deriving DecidableEq

/-- One entry of `Status.LoadBalancer.Ingress`. -/
structure LoadBalancerIngress where
  ip : String
  deriving DecidableEq

structure IngressV2 where
  name : RName
  labels : SMap
  annotations : SMap
  resourceVersion : Nat
  spec : IngressSpecV2
  lbIngress : List LoadBalancerIngress
  deriving DecidableEq

/-- Modelled from the spec: the resolved backend target (concrete service
name, namespace, first declared port) produced by the backend resolution of
the service layer, which is not among the provided sources. -/
structure BackendTarget where
  service : String
  ns : String
  port : Nat
  deriving DecidableEq

/-- `router.Opts` as `Ensure` reads it. -/
structure RouterOpts where
  domain : String
  domainPfx : String
  domainSfx : String
  route : String
  acme : Bool
  additionalOpts : SMap
  deriving DecidableEq

/-- The operator-level configuration of the service: `BaseService.Labels` and
`.Annotations`, plus the `IngressService` fields `DomainSuffix`,
`AnnotationsPrefix`, `IngressClass` and `OptsAsAnnotations`. -/
structure IngressCfg where
  baseLabels : SMap
  baseAnnotations : SMap
  domainSfx : String
  annPfx : String
  ingressCls : String
  optsAsAnnotations : SMap
  deriving DecidableEq

/-- `router.EnsureBackendOpts` as `Ensure` reads it. -/
structure EnsureOpts where
  cnames : List String
  preserveOldCNames : Bool
  opts : RouterOpts
  deriving DecidableEq

/-- Modelled from the spec: `mergeMaps` (not among the provided sources)
copies the first map and overlays the second, later entries winning. -/
def mergeMaps (a b : SMap) : SMap :=
  List.foldl (fun m kv => sinsert m kv.1 kv.2) a b

def annotationWithPfx (cfg : IngressCfg) (sfx : String) : String :=
  if cfg.annPfx = "" then sfx else cfg.annPfx ++ "/" ++ sfx

/-- Go `strings.TrimSuffix(s, "-")`. -/
def goTrimDash (s : String) : String :=
  if s.endsWith "-" then String.mk s.data.dropLast else s

/-- The annotation name an additional option maps to: through the configured
map, else verbatim when the option name contains "/", else behind the
operator's annotation prefix. -/
def optAnnName (cfg : IngressCfg) (optsAsAnn : SMap) (optName : String) : String :=
  match slookup optsAsAnn optName with
  | some l => l
  | none =>
    if optName.data.contains '/' then optName else annotationWithPfx cfg optName

/-- One iteration of the additional-options loop of `fillIngressMeta`: a "-"
suffix on the mapped annotation name deletes the annotation, otherwise it is
set to the option value. -/
def optAnnStep (cfg : IngressCfg) (optsAsAnn : SMap) (m : SMap)
    (kv : String × String) : SMap :=
  if (optAnnName cfg optsAsAnn kv.1).endsWith "-" then
    sdelete m (goTrimDash (optAnnName cfg optsAsAnn kv.1))
  else sinsert m (optAnnName cfg optsAsAnn kv.1) kv.2

/-- `fillIngressMeta`: overlays the operator labels and annotations, forces
the app identity label, maps each additional option to an annotation (a "-"
suffix deletes instead of setting), and, when ACME is requested, rewrites the
TLS block for the first rule's host and sets the ACME annotation. -/
def fillIngressMeta (cfg : IngressCfg) (i : IngressV2) (routerOpts : RouterOpts)
    (appName : String) : IngressV2 :=
  let labels1 := mergeMaps i.labels cfg.baseLabels
  let ann1 := mergeMaps i.annotations cfg.baseAnnotations
  let labels2 := sinsert labels1 appLabel appName
  let additionalOpts :=
    if cfg.ingressCls ≠ "" then
      mergeMaps routerOpts.additionalOpts [(defaultClassOpt, cfg.ingressCls)]
    else routerOpts.additionalOpts
  let optsAsAnn := mergeMaps defaultOptsAsAnnotations cfg.optsAsAnnotations
  let ann2 := List.foldl (optAnnStep cfg optsAsAnn) ann1 additionalOpts
  if !routerOpts.acme then
    { i with labels := labels2, annotations := ann2 }
  else
    let spec2 :=
      match i.spec.rules with
      | [] => i.spec
      | r :: _ =>
        { i.spec with
            tls := [{ hosts := [r.host], secretName := RName.secret appName r.host }] }
    { i with labels := labels2,
             annotations := sinsert ann2 AnnotationsACMEKey "true",
             spec := spec2 }

/-- `buildIngressSpec`: a single rule with a single path pointing at the
resolved backend target. -/
def buildIngressSpecV2 (host path : String) (target : BackendTarget) : IngressSpecV2 :=
  { rules := [{ host := host,
                paths := [{ path := path,
                            backend := { serviceName := target.service,
                                         servicePort := target.port } }] }],
    tls := [],
    backend := none }

/-- The vhost of the primary ingress: the explicit domain override, else
prefix.app.suffix with the prefix omitted when unset, the suffix being the
operator default when configured, else the per-request one. -/
def ensureVHost (cfg : IngressCfg) (appName : String) (o : RouterOpts) : String :=
  let domainSfx := if cfg.domainSfx ≠ "" then cfg.domainSfx else o.domainSfx
  if o.domain.length > 0 then o.domain
  else if o.domainPfx = "" then appName ++ "." ++ domainSfx
  else o.domainPfx ++ "." ++ appName ++ "." ++ domainSfx

/-- The desired primary ingress computed by `Ensure` before the diff: base
labels cross-referencing the backend target, the built spec, the filled
metadata, and — only when more than one alias is requested — the comma-joined
CNames annotation. -/
def buildPrimaryIngress (cfg : IngressCfg) (appName : String) (o : EnsureOpts)
    (target : BackendTarget) : IngressV2 :=
  let base : IngressV2 :=
    { name := RName.primary appName,
      labels := [(appBaseServiceNamespaceLabel, target.ns),
                 (appBaseServiceNameLabel, target.service)],
      annotations := [],
      resourceVersion := 0,
      spec := buildIngressSpecV2 (ensureVHost cfg appName o.opts) o.opts.route target,
      lbIngress := [] }
  let i := fillIngressMeta cfg base o.opts appName
  if o.cnames.length > 1 then
    { i with annotations := sinsert i.annotations AnnotationsCNames (goJoinComma o.cnames) }
  else i

/-- The desired sibling ingress for one alias host, as `ensureCNameBackend`
builds it; when the ACME annotation ends up "true", a TLS entry for the alias
is appended to whatever `fillIngressMeta` left in the spec. -/
def buildCNameIngress (cfg : IngressCfg) (appName cname : String) (o : RouterOpts)
    (target : BackendTarget) : IngressV2 :=
  let base : IngressV2 :=
    { name := RName.cname cname,
      labels := [(appBaseServiceNamespaceLabel, target.ns),
                 (appBaseServiceNameLabel, target.service),
                 (labelCNameIngress, "true")],
      annotations := [],
      resourceVersion := 0,
      spec := buildIngressSpecV2 cname o.route target,
      lbIngress := [] }
  let i := fillIngressMeta cfg base o appName
  if sget i.annotations AnnotationsACMEKey == "true" then
    { i with spec :=
        { i.spec with
            tls := i.spec.tls ++ [{ hosts := [cname],
                                    secretName := RName.secret appName cname }] } }
  else i

/-- `ingressHasChanges`: true when the specs differ structurally, else when a
desired annotation is missing or different on the existing object (read with
Go's zero-value map lookup), else the same check for labels; keys present
only on the existing object are never compared. -/
def ingressHasChanges (existing ing : IngressV2) : Bool :=
  if existing.spec ≠ ing.spec then true
  else if ing.annotations.any (fun kv => sget existing.annotations kv.1 != kv.2) then true
  else ing.labels.any (fun kv => sget existing.labels kv.1 != kv.2)

/-- The Kubernetes store of the Ensure-based service: ingress objects by name. -/
abbrev StoreV2 : Type := List (RName × IngressV2)

/-- One mutating call issued to the store. -/
inductive StoreOp where
  | create (n : RName)
  | update (n : RName)
  | delete (n : RName)
  deriving DecidableEq

/-- The update path of `Ensure` and `ensureCNameBackend`: the existing
object's resource version is carried onto the written object, and an existing
legacy single-backend pointer is preserved rather than clobbered. -/
def mergeForUpdate (existing ing : IngressV2) : IngressV2 :=
  let i1 := { ing with resourceVersion := existing.resourceVersion }
  match existing.spec.backend with
  | some b => { i1 with spec := { i1.spec with backend := some b } }
  | none => i1

/-- `ensureCNameBackend`: create the sibling when absent, update it when the
diff reports changes, otherwise issue nothing. -/
def ensureCNameBackend (cfg : IngressCfg) (appName cname : String) (o : RouterOpts)
    (target : BackendTarget) (st : StoreV2) : StoreV2 × List StoreOp :=
  let ing := buildCNameIngress cfg appName cname o target
  match alookup st (RName.cname cname) with
  | none => (ainsert st (RName.cname cname) ing, [.create (RName.cname cname)])
  | some existing =>
    if ingressHasChanges existing ing then
      (ainsert st (RName.cname cname) (mergeForUpdate existing ing),
       [.update (RName.cname cname)])
    else (st, [])

/-- `removeCNameBackend`: a delete call, "already absent" tolerated. -/
def removeCNameBackend (st : StoreV2) (cname : String) : StoreV2 × List StoreOp :=
  (aremove st (RName.cname cname), [.delete (RName.cname cname)])

/-- Modelled from the spec: `diffCNames` (not among the provided sources)
computes additions = target minus previous and removals = previous minus
target, as plain set difference. -/
def diffCNames (existingCNames expected : List String) : List String × List String :=
  (expected.filter (fun c => !(existingCNames.contains c)),
   existingCNames.filter (fun c => !(expected.contains c)))

/-- One iteration of the alias loop of `Ensure`: thread the store, accumulate
the issued calls. -/
def ensureStep (cfg : IngressCfg) (appName : String) (o : RouterOpts)
    (target : BackendTarget) (acc : StoreV2 × List StoreOp) (cname : String) :
    StoreV2 × List StoreOp :=
  let r := ensureCNameBackend cfg appName cname o target acc.1
  (r.1, acc.2 ++ r.2)

/-- One iteration of the removal loop of `Ensure`. -/
def removeStep (acc : StoreV2 × List StoreOp) (cname : String) :
    StoreV2 × List StoreOp :=
  let r := removeCNameBackend acc.1 cname
  (r.1, acc.2 ++ r.2)

/-- `IngressService.Ensure` on the success path: read the existing primary,
build the desired primary, parse the previously recorded alias set from the
CNames annotation, ensure a sibling for every requested alias, delete the
siblings of the removal set (emptied when old aliases are preserved), then
create the primary when new or update it when the diff reports changes.
Returns the final store and the trace of mutating calls in order. -/
def ensure (cfg : IngressCfg) (appName : String) (o : EnsureOpts)
    (target : BackendTarget) (st : StoreV2) : StoreV2 × List StoreOp :=
  let existingIngress := alookup st (RName.primary appName)
  let ing := buildPrimaryIngress cfg appName o target
  let existingCNames :=
    match existingIngress with
    | some ex => goSplitComma (sget ex.annotations AnnotationsCNames)
    | none => []
  let cnamesToRemove := (diffCNames existingCNames o.cnames).2
  let s1 := List.foldl (ensureStep cfg appName o.opts target) (st, ([] : List StoreOp)) o.cnames
  let toRemove := if o.preserveOldCNames then [] else cnamesToRemove
  let s2 := List.foldl removeStep s1 toRemove
  match existingIngress with
  | none =>
    (ainsert s2.1 (RName.primary appName) ing, s2.2 ++ [.create (RName.primary appName)])
  | some ex =>
    if ingressHasChanges ex ing then
      (ainsert s2.1 (RName.primary appName) (mergeForUpdate ex ing),
       s2.2 ++ [.update (RName.primary appName)])
    else (s2.1, s2.2)

/-- `GetAddresses`: a missing primary yields `[""]` with no error; otherwise
the first rule's host.  `none` models the index panic on an empty rule list. -/
def getAddresses (st : StoreV2) (appName : String) : Option (List String) :=
  match alookup st (RName.primary appName) with
  | none => some [""]
  | some ing =>
    match ing.spec.rules with
    | [] => none
    | r :: _ => some [r.host]

/-- `isIngressReady`: the load-balancer list is non-empty and its first
entry's IP is non-empty. -/
def isIngressReady (ingress : IngressV2) : Bool :=
  match ingress.lbIngress with
  | [] => false
  | e :: _ => e.ip != ""

inductive BackendStatus where
  | ready
  | notReady
  deriving DecidableEq

/-- `GetStatus`.  The event-stream detail fetch
(`getStatusForRuntimeObject`, not among the provided sources) is modelled
from the spec as an oracle input carrying either the detail or a failure. -/
def getStatus (st : StoreV2) (appName : String) (detailFetch : Except String String) :
    BackendStatus × String × Option String :=
  match alookup st (RName.primary appName) with
  | none => (.notReady, "", some "ingress not found")
  | some ing =>
    if isIngressReady ing then (.ready, "", none)
    else
      match detailFetch with
      | .error e => (.notReady, "", some e)
      | .ok detail => (.notReady, detail, none)

/-! ### `RemoveCertificate` and its TLS splice loop

The Go loop is `for k := range ingress.Spec.TLS`, whose iteration count is
the length of the slice captured at loop start, while the body reads
`ingress.Spec.TLS[k]` from the current (possibly shrunk) slice — both the
read and the splice can therefore index out of range; `none` models that
panic. -/

/-- `append(tls[:k], tls[k+1:]...)`; `none` when `k+1` exceeds the current
length (Go slice-bounds panic). -/
def spliceTLSAt (tls : List IngressTLS) (k : Nat) : Option (List IngressTLS) :=
  if k + 1 ≤ tls.length then some (tls.take k ++ tls.drop (k + 1)) else none

/-- The inner host loop at index `k`: hosts are captured once; every host
equal to the certificate's host triggers a splice at `k`. -/
def removeTLSHosts (certCname : String) (k : Nat) :
    List String → List IngressTLS → Option (List IngressTLS)
  | [], tls => some tls
  | host :: hosts, tls =>
    if certCname = host then
      match spliceTLSAt tls k with
      | none => none
      | some tls2 => removeTLSHosts certCname k hosts tls2
    else removeTLSHosts certCname k hosts tls

/-- The outer loop over the indices 0 .. (initial length - 1); reading the
entry at `k` from the current list panics (`none`) when the list has shrunk
past `k`. -/
def removeTLSLoop (certCname : String) :
    List Nat → List IngressTLS → Option (List IngressTLS)
  | [], tls => some tls
  | k :: ks, tls =>
    match tls[k]? with
    | none => none
    | some entry =>
      match removeTLSHosts certCname k entry.hosts tls with
      | none => none
      | some tls2 => removeTLSLoop certCname ks tls2

/-- The TLS-splice loop of `RemoveCertificate` (lines 758–764). -/
def removeTLSEntries (certCname : String) (tls : List IngressTLS) :
    Option (List IngressTLS) :=
  removeTLSLoop certCname (List.range tls.length) tls

inductive RemoveCertResult where
  | panicked
  | notFound
  | ok (st : StoreV2) (ops : List StoreOp)
  deriving DecidableEq

/-- `RemoveCertificate`: splice matching TLS entries out of the primary
ingress, update it, then delete the secret. -/
def removeCertificate (st : StoreV2) (appName certCname : String) : RemoveCertResult :=
  match alookup st (RName.primary appName) with
  | none => .notFound
  | some ing =>
    match removeTLSEntries certCname ing.spec.tls with
    | none => .panicked
    | some tls2 =>
      let ing2 := { ing with spec := { ing.spec with tls := tls2 } }
      .ok (ainsert st (RName.primary appName) ing2)
        [.update (RName.primary appName), .delete (RName.secret appName certCname)]

/-! ## Well-formedness of the maps the builders produce

Every annotation and label map built by `fillIngressMeta` and the two desired
ingress builders has pairwise-distinct keys, so a desired object diffed
against itself reports no changes. -/

theorem skeysNodup_mergeMaps {a : SMap} (ha : SKeysNodup a) (b : SMap) :
    SKeysNodup (mergeMaps a b) := by
  induction b generalizing a with
  | nil => exact ha
  | cons kv rest ih =>
    simpa [mergeMaps] using ih (skeysNodup_sinsert ha kv.1 kv.2)

theorem skeysNodup_optAnnStep (cfg : IngressCfg) (optsAsAnn : SMap) {m : SMap}
    (hm : SKeysNodup m) (kv : String × String) :
    SKeysNodup (optAnnStep cfg optsAsAnn m kv) := by
  unfold optAnnStep
  split
  · exact skeysNodup_sdelete hm _
  · exact skeysNodup_sinsert hm _ _

theorem skeysNodup_optAnnFold (cfg : IngressCfg) (optsAsAnn : SMap)
    (l : List (String × String)) : ∀ {m : SMap}, SKeysNodup m →
    SKeysNodup (List.foldl (optAnnStep cfg optsAsAnn) m l) := by
  induction l with
  | nil => exact fun hm => hm
  | cons kv rest ih =>
    intro m hm
    simpa using ih (skeysNodup_optAnnStep cfg optsAsAnn hm kv)

theorem fillIngressMeta_ann_nodup (cfg : IngressCfg) (i : IngressV2)
    (o : RouterOpts) (appName : String) (h : SKeysNodup i.annotations) :
    SKeysNodup (fillIngressMeta cfg i o appName).annotations := by
  unfold fillIngressMeta
  have h2 := skeysNodup_optAnnFold cfg
    (mergeMaps defaultOptsAsAnnotations cfg.optsAsAnnotations)
    (if cfg.ingressCls ≠ "" then
      mergeMaps o.additionalOpts [(defaultClassOpt, cfg.ingressCls)]
    else o.additionalOpts)
    (skeysNodup_mergeMaps h cfg.baseAnnotations)
  cases o.acme
  · simpa using h2
  · simpa using skeysNodup_sinsert h2 AnnotationsACMEKey "true"

theorem fillIngressMeta_labels_nodup (cfg : IngressCfg) (i : IngressV2)
    (o : RouterOpts) (appName : String) (h : SKeysNodup i.labels) :
    SKeysNodup (fillIngressMeta cfg i o appName).labels := by
  unfold fillIngressMeta
  have h2 := skeysNodup_sinsert (skeysNodup_mergeMaps h cfg.baseLabels) appLabel appName
  cases o.acme <;> simpa using h2

theorem buildPrimaryIngress_ann_nodup (cfg : IngressCfg) (appName : String)
    (o : EnsureOpts) (target : BackendTarget) :
    SKeysNodup (buildPrimaryIngress cfg appName o target).annotations := by
  unfold buildPrimaryIngress
  dsimp only
  have h := fillIngressMeta_ann_nodup cfg
    { name := RName.primary appName,
      labels := [(appBaseServiceNamespaceLabel, target.ns),
                 (appBaseServiceNameLabel, target.service)],
      annotations := [],
      resourceVersion := 0,
      spec := buildIngressSpecV2 (ensureVHost cfg appName o.opts) o.opts.route target,
      lbIngress := [] } o.opts appName akeysNodup_nil
  split
  · exact skeysNodup_sinsert h AnnotationsCNames (goJoinComma o.cnames)
  · exact h

theorem buildPrimaryIngress_labels_nodup (cfg : IngressCfg) (appName : String)
    (o : EnsureOpts) (target : BackendTarget) :
    SKeysNodup (buildPrimaryIngress cfg appName o target).labels := by
  unfold buildPrimaryIngress
  dsimp only
  have hbase : SKeysNodup
      [(appBaseServiceNamespaceLabel, target.ns),
       (appBaseServiceNameLabel, target.service)] := by
    simp [SKeysNodup, AKeysNodup, akeys, appBaseServiceNamespaceLabel,
      appBaseServiceNameLabel]
  have h := fillIngressMeta_labels_nodup cfg
    { name := RName.primary appName,
      labels := [(appBaseServiceNamespaceLabel, target.ns),
                 (appBaseServiceNameLabel, target.service)],
      annotations := [],
      resourceVersion := 0,
      spec := buildIngressSpecV2 (ensureVHost cfg appName o.opts) o.opts.route target,
      lbIngress := [] } o.opts appName hbase
  split
  · exact h
  · exact h

theorem buildCNameIngress_ann_nodup (cfg : IngressCfg) (appName cname : String)
    (o : RouterOpts) (target : BackendTarget) :
    SKeysNodup (buildCNameIngress cfg appName cname o target).annotations := by
  unfold buildCNameIngress
  dsimp only
  have h := fillIngressMeta_ann_nodup cfg
    { name := RName.cname cname,
      labels := [(appBaseServiceNamespaceLabel, target.ns),
                 (appBaseServiceNameLabel, target.service),
                 (labelCNameIngress, "true")],
      annotations := [],
      resourceVersion := 0,
      spec := buildIngressSpecV2 cname o.route target,
      lbIngress := [] } o appName akeysNodup_nil
  split
  · exact h
  · exact h

theorem buildCNameIngress_labels_nodup (cfg : IngressCfg) (appName cname : String)
    (o : RouterOpts) (target : BackendTarget) :
    SKeysNodup (buildCNameIngress cfg appName cname o target).labels := by
  unfold buildCNameIngress
  dsimp only
  have hbase : SKeysNodup
      [(appBaseServiceNamespaceLabel, target.ns),
       (appBaseServiceNameLabel, target.service),
       (labelCNameIngress, "true")] := by
    simp [SKeysNodup, AKeysNodup, akeys, appBaseServiceNamespaceLabel,
      appBaseServiceNameLabel, labelCNameIngress]
  have h := fillIngressMeta_labels_nodup cfg
    { name := RName.cname cname,
      labels := [(appBaseServiceNamespaceLabel, target.ns),
                 (appBaseServiceNameLabel, target.service),
                 (labelCNameIngress, "true")],
      annotations := [],
      resourceVersion := 0,
      spec := buildIngressSpecV2 cname o.route target,
      lbIngress := [] } o appName hbase
  split
  · exact h
  · exact h

/-- A desired object diffed against itself reports no changes, provided its
maps hold each key once (as every built object does). -/
theorem ingressHasChanges_self {i : IngressV2} (ha : SKeysNodup i.annotations)
    (hl : SKeysNodup i.labels) : ingressHasChanges i i = false := by
  have hann : i.annotations.any (fun kv => sget i.annotations kv.1 != kv.2) = false := by
    rw [List.any_eq_false]
    intro kv hkv
    have : sget i.annotations kv.1 = kv.2 :=
      sget_of_mem ha (show (kv.1, kv.2) ∈ i.annotations by simpa using hkv)
    simp [this]
  have hlab : i.labels.any (fun kv => sget i.labels kv.1 != kv.2) = false := by
    rw [List.any_eq_false]
    intro kv hkv
    have : sget i.labels kv.1 = kv.2 :=
      sget_of_mem hl (show (kv.1, kv.2) ∈ i.labels by simpa using hkv)
    simp [this]
  simp [ingressHasChanges, hann, hlab]

/-! ## C1: the diff-engine contract -/

/-- C1 (amended): `ingressHasChanges(existing, desired)` returns false if and
only if the two specs are structurally equal and, for every key of the
desired annotations and labels, the existing object's value for that key —
read with Go map semantics, where an absent key reads as the empty string —
equals the desired value.  Keys present only on the existing object are never
compared, so they can never make the function return true (the asymmetric,
desired-is-subset comparison). -/
theorem ingressHasChanges_eq_false_iff (existing ing : IngressV2) :
    ingressHasChanges existing ing = false ↔
      (existing.spec = ing.spec ∧
       (∀ kv ∈ ing.annotations, sget existing.annotations kv.1 = kv.2) ∧
       (∀ kv ∈ ing.labels, sget existing.labels kv.1 = kv.2)) := by
  by_cases hs : existing.spec = ing.spec
  · simp [ingressHasChanges, hs, List.any_eq_false]
  · simp [ingressHasChanges, hs]

/-- Concrete existing object of the C1 counterexample: no annotations. -/
def diffExisting : IngressV2 :=
  { name := RName.primary "app", labels := [], annotations := [],
    resourceVersion := 0, spec := { rules := [], tls := [], backend := none },
    lbIngress := [] }

/-- Concrete desired object of the C1 counterexample: one annotation whose
value is the empty string. -/
def diffDesired : IngressV2 :=
  { diffExisting with annotations := [("a", "")] }

/-- C1 as stated is false: with a desired annotation ("a", "") and an
existing object lacking the key "a", the diff returns false (Go's map read
yields the zero value "" for the missing key, which equals the desired
value), yet "existing has that key with the same value" does not hold — the
claimed equivalence fails at this input. -/
theorem hasChanges_key_presence_counterexample :
    ¬ (ingressHasChanges diffExisting diffDesired = false ↔
        (diffExisting.spec = diffDesired.spec ∧
         (∀ kv ∈ diffDesired.annotations,
            slookup diffExisting.annotations kv.1 = some kv.2) ∧
         (∀ kv ∈ diffDesired.labels,
            slookup diffExisting.labels kv.1 = some kv.2))) := by
  decide

/-! ## The alias loops of `Ensure`, in store form

The store component of the two folds of `Ensure` does not depend on the
accumulated call trace, so store reasoning is done on store-only folds. -/

/-- The store component of one alias-loop iteration. -/
def ensureStoreStep (cfg : IngressCfg) (appName : String) (o : RouterOpts)
    (target : BackendTarget) (st : StoreV2) (cname : String) : StoreV2 :=
  (ensureCNameBackend cfg appName cname o target st).1

theorem foldl_ensureStep_fst (cfg : IngressCfg) (appName : String) (o : RouterOpts)
    (target : BackendTarget) (l : List String) :
    ∀ acc : StoreV2 × List StoreOp,
      (List.foldl (ensureStep cfg appName o target) acc l).1 =
        List.foldl (ensureStoreStep cfg appName o target) acc.1 l := by
  induction l with
  | nil => intro acc; rfl
  | cons c rest ih =>
    intro acc
    rw [List.foldl_cons, List.foldl_cons]
    exact ih _

theorem foldl_removeStep_fst (l : List String) :
    ∀ acc : StoreV2 × List StoreOp,
      (List.foldl removeStep acc l).1 =
        List.foldl (fun st c => aremove st (RName.cname c)) acc.1 l := by
  induction l with
  | nil => intro acc; rfl
  | cons c rest ih =>
    intro acc
    rw [List.foldl_cons, List.foldl_cons]
    exact ih _

theorem ensureStoreStep_lookup_ne (cfg : IngressCfg) (appName : String)
    (o : RouterOpts) (target : BackendTarget) (st : StoreV2) {c : String}
    {n : RName} (h : n ≠ RName.cname c) :
    alookup (ensureStoreStep cfg appName o target st c) n = alookup st n := by
  unfold ensureStoreStep ensureCNameBackend
  cases hl : alookup st (RName.cname c) with
  | none => simpa using alookup_ainsert_ne st _ (Ne.symm h)
  | some existing =>
    by_cases hc : ingressHasChanges existing (buildCNameIngress cfg appName c o target)
    · simpa [hl, hc] using alookup_ainsert_ne st _ (Ne.symm h)
    · simp [hl, hc]

theorem ensureStoreStep_isSome_self (cfg : IngressCfg) (appName : String)
    (o : RouterOpts) (target : BackendTarget) (st : StoreV2) (c : String) :
    (alookup (ensureStoreStep cfg appName o target st c) (RName.cname c)).isSome := by
  unfold ensureStoreStep ensureCNameBackend
  cases hl : alookup st (RName.cname c) with
  | none => simp [alookup_ainsert_self]
  | some existing =>
    by_cases hc : ingressHasChanges existing (buildCNameIngress cfg appName c o target)
    · simp [hl, hc, alookup_ainsert_self]
    · simp [hl, hc]

theorem ensureStoreStep_preserves_isSome (cfg : IngressCfg) (appName : String)
    (o : RouterOpts) (target : BackendTarget) (st : StoreV2) (c : String)
    {n : RName} (h : (alookup st n).isSome) :
    (alookup (ensureStoreStep cfg appName o target st c) n).isSome := by
  by_cases hn : n = RName.cname c
  · subst hn
    exact ensureStoreStep_isSome_self cfg appName o target st c
  · rwa [ensureStoreStep_lookup_ne cfg appName o target st hn]

theorem ensureStoreStep_nodup (cfg : IngressCfg) (appName : String)
    (o : RouterOpts) (target : BackendTarget) {st : StoreV2}
    (hst : AKeysNodup st) (c : String) :
    AKeysNodup (ensureStoreStep cfg appName o target st c) := by
  unfold ensureStoreStep ensureCNameBackend
  cases hl : alookup st (RName.cname c) with
  | none => simpa using akeysNodup_ainsert hst _ _
  | some existing =>
    by_cases hc : ingressHasChanges existing (buildCNameIngress cfg appName c o target)
    · simpa [hl, hc] using akeysNodup_ainsert hst _ _
    · simpa [hl, hc] using hst

theorem ensureFoldStore_lookup_ne (cfg : IngressCfg) (appName : String)
    (o : RouterOpts) (target : BackendTarget) (l : List String) :
    ∀ (st : StoreV2) {n : RName}, (∀ c ∈ l, n ≠ RName.cname c) →
      alookup (List.foldl (ensureStoreStep cfg appName o target) st l) n =
        alookup st n := by
  induction l with
  | nil => intro st n _; rfl
  | cons c rest ih =>
    intro st n h
    rw [List.foldl_cons, ih _ (fun c2 hc2 => h c2 (by simp [hc2]))]
    exact ensureStoreStep_lookup_ne cfg appName o target st (h c (by simp))

theorem ensureFoldStore_preserves_isSome (cfg : IngressCfg) (appName : String)
    (o : RouterOpts) (target : BackendTarget) (l : List String) :
    ∀ (st : StoreV2) {n : RName}, (alookup st n).isSome →
      (alookup (List.foldl (ensureStoreStep cfg appName o target) st l) n).isSome := by
  induction l with
  | nil => intro st n h; exact h
  | cons c rest ih =>
    intro st n h
    rw [List.foldl_cons]
    exact ih _ (ensureStoreStep_preserves_isSome cfg appName o target st c h)

theorem ensureFoldStore_isSome (cfg : IngressCfg) (appName : String)
    (o : RouterOpts) (target : BackendTarget) (l : List String) :
    ∀ (st : StoreV2) {c : String}, c ∈ l →
      (alookup (List.foldl (ensureStoreStep cfg appName o target) st l)
        (RName.cname c)).isSome := by
  induction l with
  | nil => intro st c h; cases h
  | cons c0 rest ih =>
    intro st c h
    rw [List.foldl_cons]
    rcases List.mem_cons.mp h with h1 | h1
    · subst h1
      exact ensureFoldStore_preserves_isSome cfg appName o target rest _
        (ensureStoreStep_isSome_self cfg appName o target st c)
    · exact ih _ h1

theorem ensureFoldStore_nodup (cfg : IngressCfg) (appName : String)
    (o : RouterOpts) (target : BackendTarget) (l : List String) :
    ∀ {st : StoreV2}, AKeysNodup st →
      AKeysNodup (List.foldl (ensureStoreStep cfg appName o target) st l) := by
  induction l with
  | nil => exact fun h => h
  | cons c rest ih =>
    intro st h
    rw [List.foldl_cons]
    exact ih (ensureStoreStep_nodup cfg appName o target h c)

/-- After the alias loop, every requested alias whose sibling was absent or
already equal to the freshly built sibling holds exactly the freshly built
sibling, and every other name is untouched. -/
theorem ensureFoldStore_build (cfg : IngressCfg) (appName : String)
    (o : RouterOpts) (target : BackendTarget) (l : List String) :
    ∀ (st : StoreV2),
      (∀ c ∈ l, alookup st (RName.cname c) = none ∨
        alookup st (RName.cname c) =
          some (buildCNameIngress cfg appName c o target)) →
      (∀ c ∈ l, alookup (List.foldl (ensureStoreStep cfg appName o target) st l)
          (RName.cname c) = some (buildCNameIngress cfg appName c o target)) := by
  induction l with
  | nil => intro st _ c h; cases h
  | cons c0 rest ih =>
    intro st h
    have hself : ingressHasChanges
        (buildCNameIngress cfg appName c0 o target)
        (buildCNameIngress cfg appName c0 o target) = false :=
      ingressHasChanges_self (buildCNameIngress_ann_nodup cfg appName c0 o target)
        (buildCNameIngress_labels_nodup cfg appName c0 o target)
    have hstep : alookup (ensureStoreStep cfg appName o target st c0)
        (RName.cname c0) = some (buildCNameIngress cfg appName c0 o target) := by
      unfold ensureStoreStep ensureCNameBackend
      rcases h c0 (by simp) with h1 | h1
      · simp [h1, alookup_ainsert_self]
      · simp [h1, hself]
    have hframe : ∀ n : RName, n ≠ RName.cname c0 →
        alookup (ensureStoreStep cfg appName o target st c0) n = alookup st n :=
      fun n hn => ensureStoreStep_lookup_ne cfg appName o target st hn
    have hpre : ∀ c ∈ rest,
        alookup (ensureStoreStep cfg appName o target st c0) (RName.cname c) = none ∨
        alookup (ensureStoreStep cfg appName o target st c0) (RName.cname c) =
          some (buildCNameIngress cfg appName c o target) := by
      intro c hc
      by_cases he : c = c0
      · subst he
        exact Or.inr hstep
      · rw [hframe _ (by simp [he])]
        exact h c (by simp [hc])
    intro c hc
    rw [List.foldl_cons]
    rcases List.mem_cons.mp hc with h1 | h1
    · subst h1
      by_cases hin : c ∈ rest
      · exact ih _ hpre c hin
      · rw [ensureFoldStore_lookup_ne cfg appName o target rest _
          (fun c2 hc2 => by
            simp only [ne_eq, RName.cname.injEq]
            exact fun he => hin (he ▸ hc2))]
        exact hstep
    · exact ih _ hpre c h1

/-- The alias loop issues nothing when every requested sibling is already
stored exactly as rebuilt. -/
theorem ensureFold_noop (cfg : IngressCfg) (appName : String) (o : RouterOpts)
    (target : BackendTarget) (l : List String) :
    ∀ (st : StoreV2) (ops : List StoreOp),
      (∀ c ∈ l, alookup st (RName.cname c) =
        some (buildCNameIngress cfg appName c o target)) →
      List.foldl (ensureStep cfg appName o target) (st, ops) l = (st, ops) := by
  induction l with
  | nil => intro st ops _; rfl
  | cons c rest ih =>
    intro st ops h
    have hself : ingressHasChanges
        (buildCNameIngress cfg appName c o target)
        (buildCNameIngress cfg appName c o target) = false :=
      ingressHasChanges_self (buildCNameIngress_ann_nodup cfg appName c o target)
        (buildCNameIngress_labels_nodup cfg appName c o target)
    have hstep : ensureStep cfg appName o target (st, ops) c = (st, ops) := by
      simp [ensureStep, ensureCNameBackend, h c (by simp), hself]
    rw [List.foldl_cons, hstep]
    exact ih st ops (fun c2 hc2 => h c2 (by simp [hc2]))

/-! ## The removal loop of `Ensure`, in store form -/

theorem removeFoldStore_lookup_ne (l : List String) :
    ∀ (st : StoreV2) {n : RName}, (∀ c ∈ l, n ≠ RName.cname c) →
      alookup (List.foldl (fun st c => aremove st (RName.cname c)) st l) n =
        alookup st n := by
  induction l with
  | nil => intro st n _; rfl
  | cons c rest ih =>
    intro st n h
    rw [List.foldl_cons, ih _ (fun c2 hc2 => h c2 (by simp [hc2]))]
    exact alookup_aremove_ne st (Ne.symm (h c (by simp)))

theorem removeFoldStore_none (l : List String) :
    ∀ (st : StoreV2) {n : RName}, alookup st n = none →
      alookup (List.foldl (fun st c => aremove st (RName.cname c)) st l) n = none := by
  induction l with
  | nil => intro st n h; exact h
  | cons c rest ih =>
    intro st n h
    rw [List.foldl_cons]
    exact ih _ (alookup_aremove_of_none h _)

theorem removeFoldStore_nodup (l : List String) :
    ∀ {st : StoreV2}, AKeysNodup st →
      AKeysNodup (List.foldl (fun st c => aremove st (RName.cname c)) st l) := by
  induction l with
  | nil => exact fun h => h
  | cons c rest ih =>
    intro st h
    rw [List.foldl_cons]
    exact ih (akeysNodup_aremove h _)

theorem removeFoldStore_target (l : List String) :
    ∀ (st : StoreV2), AKeysNodup st → ∀ {c : String}, c ∈ l →
      alookup (List.foldl (fun st c => aremove st (RName.cname c)) st l)
        (RName.cname c) = none := by
  induction l with
  | nil => intro st _ c h; cases h
  | cons c0 rest ih =>
    intro st hst c h
    rw [List.foldl_cons]
    rcases List.mem_cons.mp h with h1 | h1
    · subst h1
      exact removeFoldStore_none rest _ (alookup_aremove_self st hst _)
    · exact ih _ (akeysNodup_aremove hst _) h1

/-! ## A first `Ensure` call against an empty namespace -/

theorem ensure_store_from_empty (cfg : IngressCfg) (appName : String)
    (o : EnsureOpts) (target : BackendTarget) :
    (ensure cfg appName o target []).1 =
      ainsert (List.foldl (ensureStoreStep cfg appName o.opts target) [] o.cnames)
        (RName.primary appName) (buildPrimaryIngress cfg appName o target) := by
  cases hp : o.preserveOldCNames <;>
    simp [ensure, hp, diffCNames, foldl_ensureStep_fst, alookup]

theorem ensure_from_empty_primary (cfg : IngressCfg) (appName : String)
    (o : EnsureOpts) (target : BackendTarget) :
    alookup (ensure cfg appName o target []).1 (RName.primary appName) =
      some (buildPrimaryIngress cfg appName o target) := by
  rw [ensure_store_from_empty]
  exact alookup_ainsert_self _ _ _

theorem ensure_from_empty_cname (cfg : IngressCfg) (appName : String)
    (o : EnsureOpts) (target : BackendTarget) :
    ∀ c ∈ o.cnames,
      alookup (ensure cfg appName o target []).1 (RName.cname c) =
        some (buildCNameIngress cfg appName c o.opts target) := by
  intro c hc
  rw [ensure_store_from_empty, alookup_ainsert_ne _ _ (by simp)]
  exact ensureFoldStore_build cfg appName o.opts target o.cnames []
    (fun c2 _ => Or.inl rfl) c hc

theorem ensure_from_empty_other (cfg : IngressCfg) (appName : String)
    (o : EnsureOpts) (target : BackendTarget) {n : RName}
    (hnp : n ≠ RName.primary appName) (hnc : ∀ c ∈ o.cnames, n ≠ RName.cname c) :
    alookup (ensure cfg appName o target []).1 n = none := by
  rw [ensure_store_from_empty, alookup_ainsert_ne _ _ (Ne.symm hnp)]
  rw [ensureFoldStore_lookup_ne cfg appName o.opts target o.cnames [] hnc]
  rfl

theorem ensure_from_empty_nodup (cfg : IngressCfg) (appName : String)
    (o : EnsureOpts) (target : BackendTarget) :
    AKeysNodup (ensure cfg appName o target []).1 := by
  rw [ensure_store_from_empty]
  exact akeysNodup_ainsert
    (ensureFoldStore_nodup cfg appName o.opts target o.cnames akeysNodup_nil) _ _

/-! ## C2: idempotence of `Ensure` -/

theorem buildPrimaryIngress_cnames_ann (cfg : IngressCfg) (appName : String)
    (o : EnsureOpts) (target : BackendTarget) (hlen : 2 ≤ o.cnames.length) :
    sget (buildPrimaryIngress cfg appName o target).annotations AnnotationsCNames =
      goJoinComma o.cnames := by
  unfold buildPrimaryIngress
  dsimp only
  rw [if_pos (by omega : o.cnames.length > 1)]
  exact sget_sinsert_self _ _ _

theorem filter_not_contains_self (l : List String) :
    l.filter (fun c => !(l.contains c)) = [] := by
  rw [List.filter_eq_nil_iff]
  intro a ha
  simp only [Bool.not_eq_true', Bool.not_eq_false]
  exact List.elem_eq_true_of_mem ha

/-- C2 (amended): starting against a namespace holding none of the app's
objects, when the requested alias set has at least two aliases and none
contains a comma (so the recorded comma-joined alias annotation parses back
to the requested set), a second `Ensure` with identical inputs issues zero
mutating calls — no create, no update and no delete — and leaves the store
untouched; the diff check returns false for the primary object and every
alias sibling.  (Without those provisos the second call still issues no
create or update, but the stale parse of the alias annotation produces
spurious no-op delete calls — see the counterexample.) -/
theorem ensure_second_call_idempotent (cfg : IngressCfg) (appName : String)
    (o : EnsureOpts) (target : BackendTarget)
    (hlen : 2 ≤ o.cnames.length)
    (hcf : ∀ c ∈ o.cnames, ',' ∉ c.data) :
    ensure cfg appName o target (ensure cfg appName o target []).1 =
      ((ensure cfg appName o target []).1, []) := by
  have hne : o.cnames ≠ [] := by
    intro h
    rw [h] at hlen
    simp at hlen
  have h1 : alookup (ensure cfg appName o target []).1 (RName.primary appName) =
      some (buildPrimaryIngress cfg appName o target) :=
    ensure_from_empty_primary cfg appName o target
  have h2 : ∀ c ∈ o.cnames,
      alookup (ensure cfg appName o target []).1 (RName.cname c) =
        some (buildCNameIngress cfg appName c o.opts target) :=
    ensure_from_empty_cname cfg appName o target
  have h3 : sget (buildPrimaryIngress cfg appName o target).annotations
      AnnotationsCNames = goJoinComma o.cnames :=
    buildPrimaryIngress_cnames_ann cfg appName o target hlen
  have h4 : goSplitComma (goJoinComma o.cnames) = o.cnames :=
    goSplitComma_goJoinComma hne hcf
  have h5 : (diffCNames o.cnames o.cnames).2 = [] := by
    simp only [diffCNames]
    exact filter_not_contains_self o.cnames
  have h6 : List.foldl (ensureStep cfg appName o.opts target)
      ((ensure cfg appName o target []).1, ([] : List StoreOp)) o.cnames =
      ((ensure cfg appName o target []).1, []) :=
    ensureFold_noop cfg appName o.opts target o.cnames _ [] h2
  have h7 : ingressHasChanges (buildPrimaryIngress cfg appName o target)
      (buildPrimaryIngress cfg appName o target) = false :=
    ingressHasChanges_self (buildPrimaryIngress_ann_nodup cfg appName o target)
      (buildPrimaryIngress_labels_nodup cfg appName o target)
  generalize hst : (ensure cfg appName o target []).1 = st1 at h1 h2 h6 ⊢
  cases hp : o.preserveOldCNames <;>
    simp [ensure, hp, h1, h3, h4, h5, h6, h7]

def cfgEx : IngressCfg := ⟨[], [], "", "", "", []⟩

def optsEx : RouterOpts := ⟨"", "", "example.com", "", false, []⟩

def targetEx : BackendTarget := ⟨"svc", "default", 8888⟩

/-- C2 as stated is false: with the alias list ["x", "y,z"] (an alias holding
a comma) the second identical `Ensure` call issues two delete calls to the
store — the comma-joined annotation "x,y,z" parses back to three names, and
the two stale ones are deleted — so the second call does not issue zero
mutating calls even though nothing changed. -/
theorem ensure_second_call_counterexample :
    (ensure cfgEx "app" ⟨["x", "y,z"], false, optsEx⟩ targetEx
        (ensure cfgEx "app" ⟨["x", "y,z"], false, optsEx⟩ targetEx []).1).2 =
      [StoreOp.delete (RName.cname "y"), StoreOp.delete (RName.cname "z")] ∧
    (([StoreOp.delete (RName.cname "y"), StoreOp.delete (RName.cname "z")] :
      List StoreOp) ≠ []) := by
  constructor
  · rfl
  · simp

/-- Witness for C2: a concrete two-alias scenario satisfying the hypotheses. -/
theorem ensure_second_call_idempotent_witness :
    ensure cfgEx "app" ⟨["a", "b"], false, optsEx⟩ targetEx
        (ensure cfgEx "app" ⟨["a", "b"], false, optsEx⟩ targetEx []).1 =
      ((ensure cfgEx "app" ⟨["a", "b"], false, optsEx⟩ targetEx []).1, []) :=
  ensure_second_call_idempotent cfgEx "app" ⟨["a", "b"], false, optsEx⟩ targetEx
    (by decide) (by decide)

/-! ## C3: alias convergence across two `Ensure` calls -/

theorem ensure_store_existing (cfg : IngressCfg) (appName : String)
    (o : EnsureOpts) (target : BackendTarget) (st : StoreV2) {ex : IngressV2}
    (hex : alookup st (RName.primary appName) = some ex) :
    (ensure cfg appName o target st).1 =
      (if ingressHasChanges ex (buildPrimaryIngress cfg appName o target) then
        ainsert (List.foldl (fun st c => aremove st (RName.cname c))
            (List.foldl (ensureStoreStep cfg appName o.opts target) st o.cnames)
            (if o.preserveOldCNames then [] else
              (diffCNames (goSplitComma (sget ex.annotations AnnotationsCNames))
                o.cnames).2))
          (RName.primary appName)
          (mergeForUpdate ex (buildPrimaryIngress cfg appName o target))
      else
        List.foldl (fun st c => aremove st (RName.cname c))
          (List.foldl (ensureStoreStep cfg appName o.opts target) st o.cnames)
          (if o.preserveOldCNames then [] else
            (diffCNames (goSplitComma (sget ex.annotations AnnotationsCNames))
              o.cnames).2)) := by
  by_cases hc : ingressHasChanges ex (buildPrimaryIngress cfg appName o target) <;>
  cases hp : o.preserveOldCNames <;>
    simp [ensure, hp, hex, hc, foldl_ensureStep_fst, foldl_removeStep_fst]

theorem ensure_existing_cname_lookup (cfg : IngressCfg) (appName : String)
    (o : EnsureOpts) (target : BackendTarget) (st : StoreV2) {ex : IngressV2}
    (hex : alookup st (RName.primary appName) = some ex) (c : String) :
    alookup (ensure cfg appName o target st).1 (RName.cname c) =
      alookup (List.foldl (fun st c => aremove st (RName.cname c))
          (List.foldl (ensureStoreStep cfg appName o.opts target) st o.cnames)
          (if o.preserveOldCNames then [] else
            (diffCNames (goSplitComma (sget ex.annotations AnnotationsCNames))
              o.cnames).2)) (RName.cname c) := by
  rw [ensure_store_existing cfg appName o target st hex]
  split
  · exact alookup_ainsert_ne _ _ (by simp)
  · rfl

/-- C3 (amended): starting from an object-free namespace, after `Ensure` with
alias set S1 followed by `Ensure` with alias set S2 — both succeeding — the
sibling route objects present are exactly those of S2, and S1 ∪ S2 when the
preserve-old-aliases flag is set on the second call, provided the first call
recorded its alias set: S1 empty, or S1 with at least two comma-free aliases.
For singleton S1 the comma-joined annotation is not written (the code guards
it with len > 1), the old alias is never computed as a removal, and the
sibling set converges to S1 ∪ S2 even without the preserve flag — see the
counterexample. -/
theorem ensure_alias_convergence (cfg : IngressCfg) (appName : String)
    (o1 o2 : RouterOpts) (S1 S2 : List String) (p : Bool) (t1 t2 : BackendTarget)
    (h1 : S1 = [] ∨ (2 ≤ S1.length ∧ ∀ c ∈ S1, ',' ∉ c.data)) (c : String) :
    (alookup (ensure cfg appName ⟨S2, p, o2⟩ t2
        (ensure cfg appName ⟨S1, false, o1⟩ t1 []).1).1 (RName.cname c)).isSome ↔
      (if p then c ∈ S1 ∨ c ∈ S2 else c ∈ S2) := by
  have hing1 : alookup (ensure cfg appName ⟨S1, false, o1⟩ t1 []).1
      (RName.primary appName) =
      some (buildPrimaryIngress cfg appName ⟨S1, false, o1⟩ t1) :=
    ensure_from_empty_primary cfg appName ⟨S1, false, o1⟩ t1
  have hnodup1 : AKeysNodup (ensure cfg appName ⟨S1, false, o1⟩ t1 []).1 :=
    ensure_from_empty_nodup cfg appName ⟨S1, false, o1⟩ t1
  have hcn1 : ∀ c0 ∈ S1,
      (alookup (ensure cfg appName ⟨S1, false, o1⟩ t1 []).1 (RName.cname c0)).isSome := by
    intro c0 hc0
    rw [ensure_from_empty_cname cfg appName ⟨S1, false, o1⟩ t1 c0 hc0]
    rfl
  have hoth1 : ∀ c0 : String, c0 ∉ S1 →
      alookup (ensure cfg appName ⟨S1, false, o1⟩ t1 []).1 (RName.cname c0) = none := by
    intro c0 hc0
    refine ensure_from_empty_other cfg appName ⟨S1, false, o1⟩ t1 (by simp) ?_
    intro c2 hc2
    simp only [ne_eq, RName.cname.injEq]
    exact fun he => hc0 (he ▸ hc2)
  rw [ensure_existing_cname_lookup cfg appName ⟨S2, p, o2⟩ t2 _ hing1 c]
  dsimp only
  have hAnodup : AKeysNodup (List.foldl (ensureStoreStep cfg appName o2 t2)
      (ensure cfg appName ⟨S1, false, o1⟩ t1 []).1 S2) :=
    ensureFoldStore_nodup cfg appName o2 t2 S2 hnodup1
  have hA_in : ∀ c0 ∈ S2,
      (alookup (List.foldl (ensureStoreStep cfg appName o2 t2)
        (ensure cfg appName ⟨S1, false, o1⟩ t1 []).1 S2) (RName.cname c0)).isSome :=
    fun c0 hc0 => ensureFoldStore_isSome cfg appName o2 t2 S2 _ hc0
  have hA_out : ∀ c0 : String, c0 ∉ S2 →
      alookup (List.foldl (ensureStoreStep cfg appName o2 t2)
          (ensure cfg appName ⟨S1, false, o1⟩ t1 []).1 S2) (RName.cname c0) =
        alookup (ensure cfg appName ⟨S1, false, o1⟩ t1 []).1 (RName.cname c0) := by
    intro c0 hc0
    refine ensureFoldStore_lookup_ne cfg appName o2 t2 S2 _ ?_
    intro c2 hc2
    simp only [ne_eq, RName.cname.injEq]
    exact fun he => hc0 (he ▸ hc2)
  cases p with
  | true =>
    simp only [if_true, List.foldl_nil]
    by_cases hc2 : c ∈ S2
    · simp [hc2, hA_in c hc2]
    · rw [hA_out c hc2]
      by_cases hcS1 : c ∈ S1
      · simp [hcS1, hcn1 c hcS1]
      · simp [hcS1, hc2, hoth1 c hcS1]
  | false =>
    rw [if_neg (by simp : ¬(false = true))]
    have hR :∀ x ∈ (diffCNames (goSplitComma (sget
        (buildPrimaryIngress cfg appName ⟨S1, false, o1⟩ t1).annotations
        AnnotationsCNames)) S2).2, x ∉ S2 := by
      intro x hx
      simp only [diffCNames, List.mem_filter] at hx
      intro hmem
      have hcont : S2.contains x = true := List.elem_eq_true_of_mem hmem
      rw [hcont] at hx
      simpa using hx.2
    by_cases hc2 : c ∈ S2
    · have hframe : alookup (List.foldl (fun st c => aremove st (RName.cname c))
          (List.foldl (ensureStoreStep cfg appName o2 t2)
            (ensure cfg appName ⟨S1, false, o1⟩ t1 []).1 S2)
          (diffCNames (goSplitComma (sget
            (buildPrimaryIngress cfg appName ⟨S1, false, o1⟩ t1).annotations
            AnnotationsCNames)) S2).2) (RName.cname c) =
          alookup (List.foldl (ensureStoreStep cfg appName o2 t2)
            (ensure cfg appName ⟨S1, false, o1⟩ t1 []).1 S2) (RName.cname c) := by
        refine removeFoldStore_lookup_ne _ _ ?_
        intro x hx
        simp only [ne_eq, RName.cname.injEq]
        exact fun he => hR x hx (he ▸ hc2)
      rw [hframe]
      simp [hc2, hA_in c hc2]
    · by_cases hcS1 : c ∈ S1
      · rcases h1 with h1e | ⟨hlen, hcf⟩
        · subst h1e
          cases hcS1
        · have hXS1 : goSplitComma (sget
              (buildPrimaryIngress cfg appName ⟨S1, false, o1⟩ t1).annotations
              AnnotationsCNames) = S1 := by
            rw [buildPrimaryIngress_cnames_ann cfg appName ⟨S1, false, o1⟩ t1 hlen]
            show goSplitComma (goJoinComma S1) = S1
            exact goSplitComma_goJoinComma
              (by intro h; rw [h] at hlen; simp at hlen) hcf
          have hcR : c ∈ (diffCNames (goSplitComma (sget
              (buildPrimaryIngress cfg appName ⟨S1, false, o1⟩ t1).annotations
              AnnotationsCNames)) S2).2 := by
            rw [hXS1]
            simp only [diffCNames, List.mem_filter]
            refine ⟨hcS1, ?_⟩
            simp only [Bool.not_eq_true']
            cases hb : S2.contains c with
            | false => rfl
            | true => exact absurd (List.mem_of_elem_eq_true hb) hc2
          rw [removeFoldStore_target _ _ hAnodup hcR]
          simp [hc2]
      · rw [removeFoldStore_none _ _ (by rw [hA_out c hc2]; exact hoth1 c hcS1)]
        simp [hc2]

/-- C3 as stated is false for singleton S1: after Ensure with S1 = ["a"] then
Ensure with S2 = ["b"] (no preserve flag), the sibling for "a" is still
present although "a" is not in S2 — the comma-joined annotation is only
written when more than one alias is requested, so a singleton previous set is
never recorded and never removed. -/
theorem ensure_alias_convergence_counterexample :
    (alookup (ensure cfgEx "app" ⟨["b"], false, optsEx⟩ targetEx
        (ensure cfgEx "app" ⟨["a"], false, optsEx⟩ targetEx []).1).1
      (RName.cname "a")).isSome = true ∧ ("a" ∉ (["b"] : List String)) := by
  constructor
  · rfl
  · simp

/-- Witness for C3: S1 = ["a", "c"], S2 = ["b"], no preserve flag, asking
about the sibling of "a". -/
theorem ensure_alias_convergence_witness :
    ((alookup (ensure cfgEx "app" ⟨["b"], false, optsEx⟩ targetEx
        (ensure cfgEx "app" ⟨["a", "c"], false, optsEx⟩ targetEx []).1).1
      (RName.cname "a")).isSome ↔
      (if false then "a" ∈ ["a", "c"] ∨ "a" ∈ ["b"]
       else "a" ∈ (["b"] : List String))) :=
  ensure_alias_convergence cfgEx "app" optsEx optsEx ["a", "c"] ["b"] false
    targetEx targetEx (Or.inr ⟨by decide, by decide⟩) "a"

/-! ## C4 and C5: the swap coordinator -/

theorem sget_sdelete_ne (m : SMap) {k k2 : String} (h : k ≠ k2) :
    sget (sdelete m k) k2 = sget m k2 := by
  simp [sget, sdelete, alookup_aremove_ne m h]

theorem swapLabel_ne_appLabel : swapLabel ≠ appLabel := by decide

theorem ingressNameV1_inj {a b : String} (h : a ≠ b) :
    ingressNameV1 a ≠ ingressNameV1 b := by
  intro he
  apply h
  have hdata : (a ++ "-ingress").data = (b ++ "-ingress").data :=
    congrArg String.data he
  have hd2 : a.data ++ "-ingress".data = b.data ++ "-ingress".data := by
    simpa using hdata
  have hab : a.data = b.data := List.append_cancel_right hd2
  cases a
  cases b
  exact congrArg String.mk hab

/-- `swap` when the source's swap label already names the destination's app:
backends exchanged, both swap labels deleted. -/
theorem swapPair_eq_of_cond {a b : IngressV1}
    (h : sget a.labels swapLabel = sget b.labels appLabel) :
    swapPair a b =
      ({ labels := sdelete a.labels swapLabel,
         serviceName := b.serviceName, servicePort := b.servicePort },
       { labels := sdelete b.labels swapLabel,
         serviceName := a.serviceName, servicePort := a.servicePort }) := by
  unfold swapPair
  rw [if_pos h]

/-- `swap` when the source's swap label does not name the destination's app:
backends exchanged, each swap label set to the other's app label. -/
theorem swapPair_eq_of_ncond {a b : IngressV1}
    (h : ¬ (sget a.labels swapLabel = sget b.labels appLabel)) :
    swapPair a b =
      ({ labels := sinsert a.labels swapLabel (sget b.labels appLabel),
         serviceName := b.serviceName, servicePort := b.servicePort },
       { labels := sinsert b.labels swapLabel (sget a.labels appLabel),
         serviceName := a.serviceName, servicePort := a.servicePort }) := by
  unfold swapPair
  rw [if_neg h]
  dsimp only
  rw [sget_sinsert_ne a.labels _ swapLabel_ne_appLabel]

/-- Both branches of `swap` exchange the backend pointers. -/
theorem swapPair_fst_backend (si di : IngressV1) :
    (swapPair si di).1.serviceName = di.serviceName ∧
    (swapPair si di).1.servicePort = di.servicePort := by
  by_cases h : sget si.labels swapLabel = sget di.labels appLabel
  · rw [swapPair_eq_of_cond h]
    exact ⟨rfl, rfl⟩
  · rw [swapPair_eq_of_ncond h]
    exact ⟨rfl, rfl⟩

theorem swapPair_snd_backend (si di : IngressV1) :
    (swapPair si di).2.serviceName = si.serviceName ∧
    (swapPair si di).2.servicePort = si.servicePort := by
  by_cases h : sget si.labels swapLabel = sget di.labels appLabel
  · rw [swapPair_eq_of_cond h]
    exact ⟨rfl, rfl⟩
  · rw [swapPair_eq_of_ncond h]
    exact ⟨rfl, rfl⟩

/-- The success path of `Swap`: both objects fetched, swapped, written. -/
theorem svcSwap_success (st : StoreV1) (srcApp dstApp : String) {si di : IngressV1}
    (hs : alookup st (ingressNameV1 srcApp) = some si)
    (hd : alookup st (ingressNameV1 dstApp) = some di) :
    svcSwap st srcApp dstApp none none none =
      (ainsert (ainsert st (ingressNameV1 srcApp) (swapPair si di).1)
        (ingressNameV1 dstApp) (swapPair si di).2, none) := by
  simp [svcSwap, hs, hd]

/-- The rollback path of `Swap`: the dst write fails, the in-memory pair is
swapped back and src is rewritten. -/
theorem svcSwap_rollback (st : StoreV1) (srcApp dstApp : String) (e : String)
    {si di : IngressV1}
    (hs : alookup st (ingressNameV1 srcApp) = some si)
    (hd : alookup st (ingressNameV1 dstApp) = some di) :
    svcSwap st srcApp dstApp none (some e) none =
      (ainsert (ainsert st (ingressNameV1 srcApp) (swapPair si di).1)
        (ingressNameV1 srcApp)
        (swapPair (swapPair si di).1 (swapPair si di).2).1, some e) := by
  simp [svcSwap, hs, hd]

/-- The fatal path of `Swap`: dst write and rollback write both fail. -/
theorem svcSwap_rollback_failed (st : StoreV1) (srcApp dstApp : String)
    (e e2 : String) {si di : IngressV1}
    (hs : alookup st (ingressNameV1 srcApp) = some si)
    (hd : alookup st (ingressNameV1 dstApp) = some di) :
    svcSwap st srcApp dstApp none (some e) (some e2) =
      (ainsert st (ingressNameV1 srcApp) (swapPair si di).1,
       some (rollbackErrMsg e e2)) := by
  simp [svcSwap, hs, hd]

/-- Swapping the swapped pair restores the backend pointers. -/
theorem swapPair_twice_backend (si di : IngressV1) :
    (swapPair (swapPair si di).1 (swapPair si di).2).1.serviceName =
        si.serviceName ∧
    (swapPair (swapPair si di).1 (swapPair si di).2).1.servicePort =
        si.servicePort ∧
    (swapPair (swapPair si di).1 (swapPair si di).2).2.serviceName =
        di.serviceName ∧
    (swapPair (swapPair si di).1 (swapPair si di).2).2.servicePort =
        di.servicePort := by
  obtain ⟨h1, h2⟩ := swapPair_fst_backend (swapPair si di).1 (swapPair si di).2
  obtain ⟨h3, h4⟩ := swapPair_snd_backend (swapPair si di).1 (swapPair si di).2
  obtain ⟨h5, h6⟩ := swapPair_fst_backend si di
  obtain ⟨h7, h8⟩ := swapPair_snd_backend si di
  exact ⟨by rw [h1, h7], by rw [h2, h8], by rw [h3, h5], by rw [h4, h6]⟩

/-- Swapping twice from a pair that is not currently swapped with each other
first sets both swap labels and then deletes both. -/
theorem swapPair_twice_labels_unswapped {si di : IngressV1}
    (hsiWF : SKeysNodup si.labels) (hdiWF : SKeysNodup di.labels)
    (hswapped : sget si.labels swapLabel ≠ sget di.labels appLabel) :
    sget (swapPair (swapPair si di).1 (swapPair si di).2).1.labels swapLabel = "" ∧
    sget (swapPair (swapPair si di).1 (swapPair si di).2).2.labels swapLabel = "" := by
  rw [swapPair_eq_of_ncond hswapped]
  dsimp only
  rw [swapPair_eq_of_cond (by
    dsimp only
    rw [sget_sinsert_self, sget_sinsert_ne di.labels _ swapLabel_ne_appLabel])]
  dsimp only
  constructor
  · exact sget_sdelete_self _ (skeysNodup_sinsert hsiWF _ _) _
  · exact sget_sdelete_self _ (skeysNodup_sinsert hdiWF _ _) _

/-- Swapping twice restores the src swap label whenever src is either
unswapped or swapped with dst itself (the rest states of the swap relation
for this pair). -/
theorem swapPair_twice_src_label {si di : IngressV1}
    (hsiWF : SKeysNodup si.labels) (hdiWF : SKeysNodup di.labels)
    (hok : sget si.labels swapLabel = "" ∨
      sget si.labels swapLabel = sget di.labels appLabel) :
    sget (swapPair (swapPair si di).1 (swapPair si di).2).1.labels swapLabel =
      sget si.labels swapLabel := by
  by_cases hc : sget si.labels swapLabel = sget di.labels appLabel
  · rw [swapPair_eq_of_cond hc]
    dsimp only
    by_cases had : sget di.labels appLabel = ""
    · rw [swapPair_eq_of_cond (by
        dsimp only
        rw [sget_sdelete_self _ hsiWF,
          sget_sdelete_ne di.labels swapLabel_ne_appLabel, had])]
      dsimp only
      rw [sget_sdelete_self _ (skeysNodup_sdelete hsiWF _), hc, had]
    · rw [swapPair_eq_of_ncond (by
        dsimp only
        rw [sget_sdelete_self _ hsiWF,
          sget_sdelete_ne di.labels swapLabel_ne_appLabel]
        exact fun he => had he.symm)]
      dsimp only
      rw [sget_sinsert_self, sget_sdelete_ne di.labels swapLabel_ne_appLabel, hc]
  · rcases hok with hok | hok
    · rw [swapPair_eq_of_ncond hc]
      dsimp only
      rw [swapPair_eq_of_cond (by
        dsimp only
        rw [sget_sinsert_self, sget_sinsert_ne di.labels _ swapLabel_ne_appLabel])]
      dsimp only
      rw [sget_sdelete_self _ (skeysNodup_sinsert hsiWF _ _), hok]
    · exact absurd hok hc

/-- C4 (amended): for two distinct applications whose primary route objects
exist (with well-formed label maps) and which are not already swapped with
each other — src's swap label does not name dst's app — performing Swap twice
in succession, all writes succeeding, leaves both objects' backend targets
(service name and port) equal to their pre-swap values and leaves both
objects without a swap-relation label.  (For an already-swapped pair the
double Swap restores the pre-swap state, swap labels included, so it does not
end without the labels — see the counterexample.) -/
theorem swap_involution (st : StoreV1) (srcApp dstApp : String)
    {si di : IngressV1}
    (hs : alookup st (ingressNameV1 srcApp) = some si)
    (hd : alookup st (ingressNameV1 dstApp) = some di)
    (hne : srcApp ≠ dstApp)
    (hsiWF : SKeysNodup si.labels) (hdiWF : SKeysNodup di.labels)
    (hswapped : sget si.labels swapLabel ≠ sget di.labels appLabel) :
    (svcSwap st srcApp dstApp none none none).2 = none ∧
    (svcSwap (svcSwap st srcApp dstApp none none none).1
        srcApp dstApp none none none).2 = none ∧
    (∃ si2 di2,
      alookup (svcSwap (svcSwap st srcApp dstApp none none none).1
          srcApp dstApp none none none).1 (ingressNameV1 srcApp) = some si2 ∧
      alookup (svcSwap (svcSwap st srcApp dstApp none none none).1
          srcApp dstApp none none none).1 (ingressNameV1 dstApp) = some di2 ∧
      si2.serviceName = si.serviceName ∧ si2.servicePort = si.servicePort ∧
      di2.serviceName = di.serviceName ∧ di2.servicePort = di.servicePort ∧
      sget si2.labels swapLabel = "" ∧ sget di2.labels swapLabel = "") := by
  have hnn : ingressNameV1 srcApp ≠ ingressNameV1 dstApp := ingressNameV1_inj hne
  have e1 := svcSwap_success st srcApp dstApp hs hd
  have hs1 : alookup (svcSwap st srcApp dstApp none none none).1
      (ingressNameV1 srcApp) = some (swapPair si di).1 := by
    rw [e1]
    rw [alookup_ainsert_ne _ _ (Ne.symm hnn)]
    exact alookup_ainsert_self _ _ _
  have hd1 : alookup (svcSwap st srcApp dstApp none none none).1
      (ingressNameV1 dstApp) = some (swapPair si di).2 := by
    rw [e1]
    exact alookup_ainsert_self _ _ _
  have e2 := svcSwap_success (svcSwap st srcApp dstApp none none none).1
    srcApp dstApp hs1 hd1
  have hs2 : alookup (svcSwap (svcSwap st srcApp dstApp none none none).1
      srcApp dstApp none none none).1 (ingressNameV1 srcApp) =
      some (swapPair (swapPair si di).1 (swapPair si di).2).1 := by
    rw [e2]
    rw [alookup_ainsert_ne _ _ (Ne.symm hnn)]
    exact alookup_ainsert_self _ _ _
  have hd2 : alookup (svcSwap (svcSwap st srcApp dstApp none none none).1
      srcApp dstApp none none none).1 (ingressNameV1 dstApp) =
      some (swapPair (swapPair si di).1 (swapPair si di).2).2 := by
    rw [e2]
    exact alookup_ainsert_self _ _ _
  obtain ⟨hb1, hb2, hb3, hb4⟩ := swapPair_twice_backend si di
  obtain ⟨hl1, hl2⟩ := swapPair_twice_labels_unswapped hsiWF hdiWF hswapped
  exact ⟨by rw [e1], by rw [e2],
    (swapPair (swapPair si di).1 (swapPair si di).2).1,
    (swapPair (swapPair si di).1 (swapPair si di).2).2,
    hs2, hd2, hb1, hb2, hb3, hb4, hl1, hl2⟩

def siSwapped : IngressV1 := ⟨[(appLabel, "a"), (swapLabel, "b")], "sb", 2⟩

def diSwapped : IngressV1 := ⟨[(appLabel, "b"), (swapLabel, "a")], "sa", 1⟩

def stSwapped : StoreV1 :=
  [(ingressNameV1 "a", siSwapped), (ingressNameV1 "b", diSwapped)]

/-- C4 as stated is false for a pair that is already swapped: double Swap on
the swapped pair "a"/"b" leaves the swap-relation label on both objects (it
clears them on the first call and sets them again on the second), so the
objects do not end without a swap-relation label. -/
theorem swap_involution_counterexample :
    Option.map (fun i => sget i.labels swapLabel)
      (alookup (svcSwap (svcSwap stSwapped "a" "b" none none none).1
        "a" "b" none none none).1 (ingressNameV1 "a")) = some "b" ∧
    (some "b" ≠ some "") := by
  constructor
  · rfl
  · simp

def siEx : IngressV1 := ⟨[(appLabel, "a")], "sa", 1⟩

def diEx : IngressV1 := ⟨[(appLabel, "b")], "sb", 2⟩

def stUnswapped : StoreV1 :=
  [(ingressNameV1 "a", siEx), (ingressNameV1 "b", diEx)]

/-- Witness for C4: a concrete unswapped pair. -/
theorem swap_involution_witness :
    (svcSwap stUnswapped "a" "b" none none none).2 = none ∧
    (svcSwap (svcSwap stUnswapped "a" "b" none none none).1
        "a" "b" none none none).2 = none ∧
    (∃ si2 di2,
      alookup (svcSwap (svcSwap stUnswapped "a" "b" none none none).1
          "a" "b" none none none).1 (ingressNameV1 "a") = some si2 ∧
      alookup (svcSwap (svcSwap stUnswapped "a" "b" none none none).1
          "a" "b" none none none).1 (ingressNameV1 "b") = some di2 ∧
      si2.serviceName = siEx.serviceName ∧ si2.servicePort = siEx.servicePort ∧
      di2.serviceName = diEx.serviceName ∧ di2.servicePort = diEx.servicePort ∧
      sget si2.labels swapLabel = "" ∧ sget di2.labels swapLabel = "") :=
  swap_involution stUnswapped "a" "b" rfl rfl (by decide)
    (by decide : (akeys siEx.labels).Nodup) (by decide : (akeys diEx.labels).Nodup)
    (by decide)

/-- C5 (amended): if during Swap(src, dst) the src write succeeds, the dst
write fails, and the compensating rollback write of src succeeds, then src's
backend target and swap label are restored to their pre-Swap values, dst is
left untouched, and the caller receives the original write error; if the
rollback write also fails, the caller receives the combined error naming both
failures.  This holds provided src's swap label is either absent or names
dst (the swap-relation states of this pair); when src is currently swapped
with a third application, the rollback erases that label instead of
restoring it — see the counterexample. -/
theorem swap_rollback_semantics (st : StoreV1) (srcApp dstApp : String)
    (e : String) {si di : IngressV1}
    (hs : alookup st (ingressNameV1 srcApp) = some si)
    (hd : alookup st (ingressNameV1 dstApp) = some di)
    (hne : srcApp ≠ dstApp)
    (hsiWF : SKeysNodup si.labels) (hdiWF : SKeysNodup di.labels)
    (hok : sget si.labels swapLabel = "" ∨
      sget si.labels swapLabel = sget di.labels appLabel) :
    (∃ si2,
      alookup (svcSwap st srcApp dstApp none (some e) none).1
        (ingressNameV1 srcApp) = some si2 ∧
      si2.serviceName = si.serviceName ∧ si2.servicePort = si.servicePort ∧
      sget si2.labels swapLabel = sget si.labels swapLabel) ∧
    alookup (svcSwap st srcApp dstApp none (some e) none).1
      (ingressNameV1 dstApp) = some di ∧
    (svcSwap st srcApp dstApp none (some e) none).2 = some e ∧
    (∀ e2 : String, (svcSwap st srcApp dstApp none (some e) (some e2)).2 =
      some (rollbackErrMsg e e2)) := by
  have hnn : ingressNameV1 srcApp ≠ ingressNameV1 dstApp := ingressNameV1_inj hne
  have e1 := svcSwap_rollback st srcApp dstApp e hs hd
  obtain ⟨hb1, hb2, _, _⟩ := swapPair_twice_backend si di
  refine ⟨⟨(swapPair (swapPair si di).1 (swapPair si di).2).1, ?_, hb1, hb2,
      swapPair_twice_src_label hsiWF hdiWF hok⟩, ?_, ?_, ?_⟩
  · rw [e1]
    exact alookup_ainsert_self _ _ _
  · rw [e1]
    rw [alookup_ainsert_ne _ _ hnn, alookup_ainsert_ne _ _ hnn]
    exact hd
  · rw [e1]
  · intro e2
    rw [svcSwap_rollback_failed st srcApp dstApp e e2 hs hd]

def siThird : IngressV1 := ⟨[(appLabel, "a"), (swapLabel, "c")], "sa", 1⟩

def stThird : StoreV1 :=
  [(ingressNameV1 "a", siThird), (ingressNameV1 "b", diEx)]

/-- C5 as stated is false when src is currently swapped with a third
application: swapping "a" (swapped with "c") with "b", with the dst write
failing and the rollback succeeding, leaves "a" with no swap label at all
instead of restoring "c" — the rollback write is not a faithful restore. -/
theorem swap_rollback_counterexample :
    Option.map (fun i => sget i.labels swapLabel)
      (alookup (svcSwap stThird "a" "b" none (some "boom") none).1
        (ingressNameV1 "a")) = some "" ∧
    (some "" ≠ some "c") ∧
    (svcSwap stThird "a" "b" none (some "boom") none).2 = some "boom" := by
  refine ⟨rfl, by simp, rfl⟩

/-- Witness for C5: the concrete unswapped pair with a failing dst write. -/
theorem swap_rollback_semantics_witness :
    (∃ si2,
      alookup (svcSwap stUnswapped "a" "b" none (some "boom") none).1
        (ingressNameV1 "a") = some si2 ∧
      si2.serviceName = siEx.serviceName ∧ si2.servicePort = siEx.servicePort ∧
      sget si2.labels swapLabel = sget siEx.labels swapLabel) ∧
    alookup (svcSwap stUnswapped "a" "b" none (some "boom") none).1
      (ingressNameV1 "b") = some diEx ∧
    (svcSwap stUnswapped "a" "b" none (some "boom") none).2 = some "boom" ∧
    (∀ e2 : String, (svcSwap stUnswapped "a" "b" none (some "boom") (some e2)).2 =
      some (rollbackErrMsg "boom" e2)) :=
  swap_rollback_semantics stUnswapped "a" "b" "boom" rfl rfl (by decide)
    (by decide : (akeys siEx.labels).Nodup) (by decide : (akeys diEx.labels).Nodup)
    (Or.inl rfl)

/-! ## C6: the backend tie-break of the original `Update` -/

theorem find?_eq_none_of_filter_nil {p : ServiceV1 → Bool} {l : List ServiceV1}
    (h : l.filter p = []) : l.find? p = none := by
  induction l with
  | nil => rfl
  | cons a rest ih =>
    by_cases hp : p a
    · simp [List.filter_cons, hp] at h
    · simp only [List.filter_cons, hp] at h
      simp only [List.find?, hp]
      exact ih (by simpa [hp] using h)

theorem find?_eq_some_of_filter_cons {p : ServiceV1 → Bool} {l : List ServiceV1}
    {s : ServiceV1} {rest : List ServiceV1}
    (h : l.filter p = s :: rest) : l.find? p = some s := by
  induction l with
  | nil => cases h
  | cons a tail ih =>
    by_cases hp : p a
    · simp only [List.filter_cons, if_pos hp] at h
      injection h with h1 h2
      subst h1
      simp [List.find?, hp]
    · simp only [List.filter_cons, if_neg hp] at h
      simp only [List.find?, hp]
      exact ih (by simpa [hp] using h)

/-- C6 (amended): backend resolution fails with `ErrNoService(app)` on zero
services, selects the single service when there is exactly one, and with more
than one service selects the first listed service labeled as the web process,
failing with `ErrNoService(app, process:"web")` only when no service carries
the web-process label — two or more web-labeled services are not rejected as
ambiguous; the first in list order wins. -/
theorem selectWebService_spec (appName : String) (items : List ServiceV1) :
    (items = [] → selectWebService appName items = .error ⟨appName, ""⟩) ∧
    (∀ s : ServiceV1, items = [s] → selectWebService appName items = .ok s) ∧
    (2 ≤ items.length →
      (items.filter (fun s => sget s.labels processLabel == webProcessName) = [] →
        selectWebService appName items = .error ⟨appName, webProcessName⟩) ∧
      (∀ s rest,
        items.filter (fun s => sget s.labels processLabel == webProcessName) =
          s :: rest →
        selectWebService appName items = .ok s)) := by
  refine ⟨?_, ?_, ?_⟩
  · intro h
    subst h
    rfl
  · intro s h
    subst h
    rfl
  · intro hlen
    match items, hlen with
    | a :: b :: rest, _ =>
      have hgt : (a :: b :: rest).length > 1 := by
        simp [List.length_cons]
      constructor
      · intro hfil
        simp only [selectWebService, if_pos hgt,
          find?_eq_none_of_filter_nil hfil]
      · intro s rest2 hfil
        simp only [selectWebService, if_pos hgt,
          find?_eq_some_of_filter_cons hfil]

def webSvc1 : ServiceV1 := ⟨"w1", [(processLabel, "web")], 80⟩

def webSvc2 : ServiceV1 := ⟨"w2", [(processLabel, "web")], 81⟩

/-- C6 as stated is false: with two services both labeled as the web process
(none or more than one web service should fail per the claim), the selection
does not fail with `ErrNoService(app, "web")` — it silently picks the first
web-labeled service. -/
theorem selectWebService_counterexample :
    selectWebService "app" [webSvc1, webSvc2] = .ok webSvc1 ∧
    ((Except.ok webSvc1 : Except ErrNoService ServiceV1) ≠
      .error ⟨"app", webProcessName⟩) := by
  exact ⟨rfl, by simp⟩

/-! ## C7: the TLS splice of `RemoveCertificate` -/

def tlsEntryH1 : IngressTLS := ⟨["h"], RName.secret "app" "h"⟩

def tlsEntryH2 : IngressTLS := ⟨["h"], RName.secret "app" "h"⟩

def ingWithTLS : IngressV2 :=
  { name := RName.primary "app", labels := [], annotations := [],
    resourceVersion := 0,
    spec := { rules := [], tls := [tlsEntryH1, tlsEntryH2], backend := none },
    lbIngress := [] }

def stWithTLS : StoreV2 := [(RName.primary "app", ingWithTLS)]

/-- C7 (code bug): with two adjacent TLS entries for the same host,
`RemoveCertificate` does not remove both — after the in-place splice of the
first entry, the range loop (whose bound is the original length) indexes the
shrunk slice out of range and the call panics before any update is written.
The filter-and-copy the spec asks for would leave no entry for the host. -/
theorem removeCertificate_adjacent_panics :
    removeCertificate stWithTLS "app" "h" = .panicked ∧
    removeTLSEntries "h" [tlsEntryH1, tlsEntryH2] = none ∧
    [tlsEntryH1, tlsEntryH2].filter (fun e => !(e.hosts.contains "h")) = [] := by
  exact ⟨rfl, rfl, rfl⟩

/-! ## C8: removal guard and idempotence of the original `Remove` -/

theorem aremove_eq_of_none {K V : Type} [DecidableEq K] {m : List (K × V)}
    {k : K} (h : alookup m k = none) : aremove m k = m := by
  induction m with
  | nil => rfl
  | cons p rest ih =>
    obtain ⟨pk, pv⟩ := p
    by_cases hp : pk = k
    · simp [alookup, hp] at h
    · simp only [alookup, if_neg hp] at h
      simp [aremove, hp, ih h]

/-- C8: `Remove(app)` fails with `AppSwapped(app, partner)` and issues no
delete when the primary route object carries the swap-relation label; it
returns success when the object is absent at lookup time; and it returns
success when the object vanished between lookup and delete (the delete's
not-found is swallowed), leaving the store as the delete found it. -/
theorem svcRemove_spec (stGet stDel : StoreV1) (appName : String) :
    (∀ ingress dstApp,
      alookup stGet (ingressNameV1 appName) = some ingress →
      slookup ingress.labels swapLabel = some dstApp →
      svcRemove stGet stDel appName = (.appSwapped appName dstApp, stDel)) ∧
    (alookup stGet (ingressNameV1 appName) = none →
      svcRemove stGet stDel appName = (.ok, stDel)) ∧
    (∀ ingress,
      alookup stGet (ingressNameV1 appName) = some ingress →
      slookup ingress.labels swapLabel = none →
      alookup stDel (ingressNameV1 appName) = none →
      svcRemove stGet stDel appName = (.ok, stDel)) := by
  refine ⟨?_, ?_, ?_⟩
  · intro ingress dstApp hg hl
    simp [svcRemove, hg, hl]
  · intro hg
    simp [svcRemove, hg]
  · intro ingress hg hl hdel
    simp [svcRemove, hg, hl, aremove_eq_of_none hdel]

/-- Witness for C8: all three modes at concrete stores — a swapped object is
refused, a missing object is success, and a delete-time disappearance is
success. -/
theorem svcRemove_spec_witness :
    svcRemove stSwapped [] "a" = (.appSwapped "a" "b", []) ∧
    svcRemove [] [] "zzz" = (.ok, []) ∧
    svcRemove stUnswapped [] "a" = (.ok, []) := by
  refine ⟨?_, ?_, ?_⟩
  · exact (svcRemove_spec stSwapped [] "a").1 siSwapped "b" rfl rfl
  · exact (svcRemove_spec [] [] "zzz").2.1 rfl
  · exact (svcRemove_spec stUnswapped [] "a").2.2 siEx rfl rfl rfl

/-! ## C9: readiness and status detail -/

/-- C9 (amended): `GetStatus` reports ready exactly when the route object's
load-balancer list is non-empty with a non-empty first address; but when not
ready, a failure of the event-stream detail fetch is returned as an error to
the caller — the call fails rather than degrading to "not ready, no
detail". -/
theorem getStatus_spec (st : StoreV2) (appName : String)
    (detailFetch : Except String String) (ing : IngressV2)
    (hex : alookup st (RName.primary appName) = some ing) :
    ((getStatus st appName detailFetch).1 = .ready ↔
      (ing.lbIngress ≠ [] ∧ (ing.lbIngress.headD ⟨""⟩).ip ≠ "")) ∧
    (isIngressReady ing = false → ∀ e, detailFetch = .error e →
      getStatus st appName detailFetch = (.notReady, "", some e)) ∧
    (isIngressReady ing = false → ∀ d, detailFetch = .ok d →
      getStatus st appName detailFetch = (.notReady, d, none)) := by
  refine ⟨?_, ?_, ?_⟩
  · by_cases hr : isIngressReady ing
    · simp only [getStatus, hex, if_pos hr]
      constructor
      · intro _
        cases hlb : ing.lbIngress with
        | nil => simp [isIngressReady, hlb] at hr
        | cons e rest =>
          refine ⟨by simp, ?_⟩
          simp only [isIngressReady, hlb] at hr
          simpa [hlb] using by simpa using hr
      · intro _
        trivial
    · cases detailFetch with
      | error e =>
        simp only [getStatus, hex, if_neg hr]
        constructor
        · intro h
          cases h
        · intro ⟨h1, h2⟩
          exfalso
          apply hr
          cases hlb : ing.lbIngress with
          | nil => exact absurd hlb h1
          | cons x rest =>
            simp only [isIngressReady, hlb]
            simpa using by simpa [hlb] using h2
      | ok d =>
        simp only [getStatus, hex, if_neg hr]
        constructor
        · intro h
          cases h
        · intro ⟨h1, h2⟩
          exfalso
          apply hr
          cases hlb : ing.lbIngress with
          | nil => exact absurd hlb h1
          | cons x rest =>
            simp only [isIngressReady, hlb]
            simpa using by simpa [hlb] using h2
  · intro hr e hdf
    subst hdf
    simp [getStatus, hex, hr]
  · intro hr d hdf
    subst hdf
    simp [getStatus, hex, hr]

def unreadyIng : IngressV2 :=
  { name := RName.primary "app", labels := [], annotations := [],
    resourceVersion := 0, spec := { rules := [], tls := [], backend := none },
    lbIngress := [] }

def stUnready : StoreV2 := [(RName.primary "app", unreadyIng)]

/-- C9 as stated is false: when the object is not ready and the detail fetch
fails, `GetStatus` returns the fetch error to the caller instead of degrading
to not-ready with empty detail and no error. -/
theorem getStatus_counterexample :
    getStatus stUnready "app" (.error "event list failed") =
      (.notReady, "", some "event list failed") ∧
    ((some "event list failed" : Option String) ≠ none) := by
  exact ⟨rfl, by simp⟩

/-- Witness for C9: the concrete unready object with a failing fetch. -/
theorem getStatus_spec_witness :
    ((getStatus stUnready "app" (.error "boom")).1 = .ready ↔
      (unreadyIng.lbIngress ≠ [] ∧ (unreadyIng.lbIngress.headD ⟨""⟩).ip ≠ "")) ∧
    (isIngressReady unreadyIng = false → ∀ e, (Except.error "boom" : Except String String) = .error e →
      getStatus stUnready "app" (.error "boom") = (.notReady, "", some e)) ∧
    (isIngressReady unreadyIng = false → ∀ d, (Except.error "boom" : Except String String) = .ok d →
      getStatus stUnready "app" (.error "boom") = (.notReady, d, none)) :=
  getStatus_spec stUnready "app" (.error "boom") unreadyIng rfl

/-! ## C10: `GetAddresses` -/

/-- C10: when the primary route object does not exist, `GetAddresses` returns
the one-element list holding the empty string and no error (the not-found is
swallowed); when it exists, the result is the one-element list holding the
first rule's host — not the load-balancer address. -/
theorem getAddresses_spec (st : StoreV2) (appName : String) :
    (alookup st (RName.primary appName) = none →
      getAddresses st appName = some [""]) ∧
    (∀ ing r rest, alookup st (RName.primary appName) = some ing →
      ing.spec.rules = r :: rest →
      getAddresses st appName = some [r.host]) := by
  constructor
  · intro h
    simp [getAddresses, h]
  · intro ing r rest h hr
    simp [getAddresses, h, hr]

def readyIng : IngressV2 :=
  { name := RName.primary "app", labels := [], annotations := [],
    resourceVersion := 0,
    spec := { rules := [{ host := "app.example.com", paths := [] }], tls := [],
              backend := none },
    lbIngress := [⟨"10.0.0.1"⟩] }

def stReady : StoreV2 := [(RName.primary "app", readyIng)]

/-- Witness for C10: a missing object yields [""], a present object yields
its first rule's host rather than the load-balancer address. -/
theorem getAddresses_spec_witness :
    (getAddresses ([] : StoreV2) "app" = some [""]) ∧
    (getAddresses stReady "app" = some ["app.example.com"]) := by
  constructor
  · exact (getAddresses_spec [] "app").1 rfl
  · exact (getAddresses_spec stReady "app").2 readyIng
      { host := "app.example.com", paths := [] } [] rfl rfl

end TsuruIngress
